import Mathlib

set_option maxHeartbeats 1000000

namespace SpanishRogue

/-! Character-level helpers mirroring Python's string primitives.
Python strings are sequences of Unicode code points, so every operation
below works on `String.data : List Char`. -/

/-- Number of characters of a string (Python `len(s)`). -/
def pyLen (s : String) : Nat := s.data.length

/-- Python slice `s[:n]` for `0 ≤ n` (character based). -/
def pyTake (s : String) (n : Nat) : String := ⟨s.data.take n⟩

/-- Python slice `s[n:]` for `0 ≤ n` (character based). -/
def pyDrop (s : String) (n : Nat) : String := ⟨s.data.drop n⟩

/-- Python `s.endswith(t)` (character based). -/
def pyEndsWith (s t : String) : Bool := decide (t.data <:+ s.data)

/-- Python truthiness of an optional string: `None` and `""` are falsy. -/
def pyTruthy : Option String → Bool
  | none => false
  | some s => s ≠ ""

/-! Data model (src/game/models.py). -/

/-- Verb card: an infinitive string (models.VerbCard). -/
structure VerbCard where
  infinitive : String
deriving DecidableEq, Repr

/-- Conjugation rule card (models.RuleCard). -/
structure RuleCard where
  person : String
  stem_from : Option String := none
  stem_to : Option String := none
  ending_from : Option String := none
  ending_to : Option String := none
  verb_infinitive : Option String := none
deriving DecidableEq, Repr

instance : Inhabited RuleCard := ⟨{ person := "" }⟩

/-- Display pattern of a rule card (models.RuleCard.pattern).  In the source
`x or ''` yields `""` for both `None` and `""`, which is `Option.getD` after
collapsing `some ""` to `""`. -/
def RuleCard.pattern (r : RuleCard) : String :=
  let parts : List String :=
    (if r.stem_from ≠ none ∨ r.stem_to ≠ none then
      [(r.stem_from.getD "") ++ "->" ++ (r.stem_to.getD "")] else []) ++
    (if r.ending_from ≠ none ∨ r.ending_to ≠ none then
      [(r.ending_from.getD "") ++ "->" ++ (r.ending_to.getD "")] else [])
  String.intercalate " + " parts

/-- Skill card (models.SkillCard). -/
structure SkillCard where
  name : String
  description : String
  cost : Nat
  triple_damage_on_directional : Bool := false
  retain_on_play_50 : Bool := false
deriving DecidableEq, Repr

/-- Player record (models.Player). -/
structure Player where
  hp : Int := 20
  coins : Nat := 0
  skills : List SkillCard := []
  hand_verbs : List VerbCard := []
  hand_rules : List RuleCard := []
  base_hand_verbs : Nat := 3
  base_hand_rules : Nat := 3
deriving DecidableEq, Repr

/-- Boss record (models.Boss). -/
structure Boss where
  name : String
  hp : Int
  base_hp_per_subround : Nat
deriving DecidableEq, Repr

/-- Current question: the target grammatical person (models.Question). -/
structure Question where
  person : String
deriving DecidableEq, Repr

/-- One verb record of the lexicon: an infinitive plus its recorded
present-indicative forms, a person-indexed dictionary modelled as a
first-match association list (src/game/lexicon.py data layout). -/
structure VerbEntry where
  infinitive : String
  present_indicative : List (String × String) := []
deriving DecidableEq, Repr

/-- Verb lexicon (lexicon.VerbLexicon, already loaded). -/
structure VerbLexicon where
  verbs : List VerbEntry
deriving DecidableEq, Repr

/-- Dictionary lookup `forms.get(person)` on an association list. -/
def lookupForm (forms : List (String × String)) (person : String) : Option String :=
  (forms.find? (fun q => q.1 == person)).map (·.2)

/-- Lexicon lookup (lexicon.VerbLexicon.get_present_form): first verb record
with the given infinitive, then its form for the person, else `None`. -/
def VerbLexicon.get_present_form (L : VerbLexicon) (infinitive person : String) : Option String :=
  match L.verbs.find? (fun v => v.infinitive == infinitive) with
  | some v => lookupForm v.present_indicative person
  | none => none

/-- Game state (models.GameState).  The dynamically attached `lexicon`
attribute of the source is an explicit optional field here. -/
structure GameState where
  player : Player
  boss : Boss
  major_round : Nat
  subround : Nat
  question : Question
  verb_pool : List String
  lexicon : Option VerbLexicon
deriving DecidableEq, Repr

/-! Rule engine (src/game/rules.py). -/

/-- The six grammatical-person labels, in the fixed order of rules.PERSONS. -/
def PERSONS : List String :=
  ["直陈式现在时+第一人称单数",
   "直陈式现在时+第二人称单数",
   "直陈式现在时+第三人称单数",
   "直陈式现在时+第一人称复数",
   "直陈式现在时+第二人称复数",
   "直陈式现在时+第三人称复数"]

/-- The regular-suffix table rules.REGULAR_ENDINGS, including the dead
`"r" : []` entry of the source, as an insertion-ordered association list. -/
def REGULAR_ENDINGS : List (String × List String) :=
  [("ar", ["o", "as", "a", "amos", "áis", "an"]),
   ("r", []),
   ("er", ["o", "es", "e", "emos", "éis", "en"]),
   ("ir", ["o", "es", "e", "imos", "ís", "en"])]

/-- Python `REGULAR_ENDINGS.get(k, [])`. -/
def regularEndingsGet (k : String) : List String :=
  ((REGULAR_ENDINGS.find? (fun p => p.1 == k)).map Prod.snd).getD []

/-- Ending-class detection (rules.detect_ending): first of "ar"/"er"/"ir"
that is a suffix of the infinitive, else `""`. -/
def detect_ending (infinitive : String) : String :=
  if pyEndsWith infinitive "ar" then "ar"
  else if pyEndsWith infinitive "er" then "er"
  else if pyEndsWith infinitive "ir" then "ir"
  else ""

/-- First rejection test of rules.apply_rule_to_verb:
`rule.verb_infinitive and rule.verb_infinitive != infinitive`
(the same expression also computes `verb_specific_mismatch` in logic.py). -/
def boundMismatch (rule : RuleCard) (infinitive : String) : Bool :=
  match rule.verb_infinitive with
  | some v => v ≠ "" && v ≠ infinitive
  | none => false

/-- Rule application (rules.apply_rule_to_verb): returns the success flag and
the produced string, the unmodified infinitive on every failure path. -/
def apply_rule_to_verb (infinitive : String) (rule : RuleCard) : Bool × String :=
  if boundMismatch rule infinitive then (false, infinitive) else
  let ending := detect_ending infinitive
  if ending = "" then (false, infinitive) else
  let stem := pyTake infinitive (pyLen infinitive - pyLen ending)
  if (match rule.ending_from with
      | some e => decide (e ≠ "ar" ∧ e ≠ "er" ∧ e ≠ "ir")
      | none => false) then (false, infinitive) else
  if (match rule.ending_from with
      | some e => e != ending
      | none => false) then (false, infinitive) else
  if (match rule.stem_from with
      | some sf => sf != stem
      | none => false) then (false, infinitive) else
  let new_stem := rule.stem_to.getD stem
  let new_ending := rule.ending_to.getD ending
  (true, new_stem ++ new_ending)

/-- Insert a string into a length-descending sorted list, keeping earlier
elements of equal length first. -/
def insertByLen (x : String) : List String → List String
  | [] => [x]
  | y :: ys => if pyLen x ≥ pyLen y then x :: y :: ys else y :: insertByLen x ys

/-- Stable sort by descending length, modelling
`sorted(set(...), key=len, reverse=True)`.  For every regular-suffix list at
most one suffix of each length can match a given target, so the unspecified
tie order of the Python set iteration is immaterial. -/
def sortByLenDesc : List String → List String
  | [] => []
  | x :: xs => insertByLen x (sortByLenDesc xs)

/-- Candidate regular suffixes for a base class, longest first
(`sorted(set(REGULAR_ENDINGS.get(base, [])), key=len, reverse=True)`). -/
def suffixCandidates (base : String) : List String :=
  sortByLenDesc (regularEndingsGet base).dedup

/-- The generic part of rules.present_indicative_rules: one rule per
(ending class, person) pair, 18 in total. -/
def genericRules : List RuleCard :=
  (REGULAR_ENDINGS.filter (fun e => e.1 = "ar" ∨ e.1 = "er" ∨ e.1 = "ir")).flatMap
    (fun e => e.2.enum.map (fun it =>
      { person := PERSONS.getD it.1 "",
        stem_from := none, stem_to := none,
        ending_from := some e.1, ending_to := some it.2 }))

/-- Ending-class choice of the irregular-rule loop: suffix match against
ar/er/ir in order, falling back to the last two characters (`inf[-2:]`). -/
def irregularBase (inf : String) : String :=
  if pyEndsWith inf "ar" then "ar"
  else if pyEndsWith inf "er" then "er"
  else if pyEndsWith inf "ir" then "ir"
  else pyDrop inf (pyLen inf - 2)

/-- Derived suffix `ending_prime` of the irregular-rule loop: the first
(longest) regular suffix of the ending class that ends the target form,
defaulting to the target's last two characters. -/
def endingPrimeFor (base target : String) : String :=
  match (suffixCandidates base).find? (fun e => pyEndsWith target e) with
  | some e => e
  | none => pyDrop target (pyLen target - 2)

/-- Derived irregular stem `stem_prime` of the irregular-rule loop. -/
def stemPrimeFor (base target : String) : String :=
  if endingPrimeFor base target ≠ "" then
    pyTake target (pyLen target - pyLen (endingPrimeFor base target))
  else target

/-- The irregular rule rules.present_indicative_rules builds for one lexicon
entry `inf` and one person, from the recorded target form. -/
def irregularRuleFor (inf person target : String) : RuleCard :=
  let base := irregularBase inf
  let stem := pyTake inf (pyLen inf - pyLen base)
  let stem_prime := stemPrimeFor base target
  { person := person,
    stem_from := if stem_prime ≠ stem then some stem else none,
    stem_to := if stem_prime ≠ stem then some stem_prime else none,
    ending_from := some base,
    ending_to := some (endingPrimeFor base target),
    verb_infinitive := some inf }

/-- The irregular part of rules.present_indicative_rules: one rule per
(verb, person) pair whose recorded form is truthy, skipping entries with a
falsy infinitive.  `if lexicon is not None and lexicon.verbs` degenerates to
the empty output on an empty verb list, exactly as this bind does. -/
def irregularRules : Option VerbLexicon → List RuleCard
  | none => []
  | some L =>
    L.verbs.flatMap (fun v =>
      if v.infinitive = "" then [] else
      PERSONS.flatMap (fun person =>
        match lookupForm v.present_indicative person with
        | none => []
        | some target =>
          if target = "" then [] else [irregularRuleFor v.infinitive person target]))

/-- Rule generation (rules.present_indicative_rules): the 18 generic rules
followed by the lexicon-derived irregular rules. -/
def present_indicative_rules (lexicon : Option VerbLexicon) : List RuleCard :=
  genericRules ++ irregularRules lexicon

/-- Expected present form (rules.expected_present_form): prefer a truthy
lexicon form, else the regular suffix table, else `""`. -/
def expected_present_form (infinitive person : String) (lexicon : Option VerbLexicon) : String :=
  let viaLex := match lexicon with
    | some L => (L.get_present_form infinitive person).getD ""
    | none => ""
  if viaLex ≠ "" then viaLex else
  let ending := detect_ending infinitive
  if ending = "ar" ∨ ending = "er" ∨ ending = "ir" then
    match PERSONS.findIdx? (fun p => p == person) with
    | some idx =>
      let stem := pyTake infinitive (pyLen infinitive - pyLen ending)
      let endings := regularEndingsGet ending
      if idx < endings.length then stem ++ endings.getD idx "" else ""
    | none => ""
  else ""

/-! Normalization (logic._normalize_form).  The source computes
`unicodedata.normalize("NFC", s).strip().casefold()`.  We model the three
stages at the code-point level, restricted to the alphabet the game can
meet: ASCII, the Spanish precomposed letters á é í ó ú ü ñ (both cases) and
the combining marks U+0301 (acute), U+0308 (diaeresis), U+0303 (tilde).
On this alphabet NFC is exactly "compose a base letter with an immediately
following combining mark", casefold is lowercasing, and strip removes
leading/trailing whitespace. -/

/-- Canonical composition of a base letter with one combining mark
(the restriction of the Unicode canonical composition table to the
characters relevant to Spanish conjugation). -/
def composeBase (a m : Char) : Option Char :=
  if m = '́' then
    if a = 'a' then some 'á' else if a = 'A' then some 'Á'
    else if a = 'e' then some 'é' else if a = 'E' then some 'É'
    else if a = 'i' then some 'í' else if a = 'I' then some 'Í'
    else if a = 'o' then some 'ó' else if a = 'O' then some 'Ó'
    else if a = 'u' then some 'ú' else if a = 'U' then some 'Ú'
    else none
  else if m = '̈' then
    if a = 'u' then some 'ü' else if a = 'U' then some 'Ü' else none
  else if m = '̃' then
    if a = 'n' then some 'ñ' else if a = 'N' then some 'Ñ' else none
  else none

/-- NFC worker, structurally recursive on a fuel argument.  Each step
shortens the list, so a fuel equal to the list length never runs out
(the `0` branch is unreachable). -/
def nfcGo : Nat → List Char → List Char
  | _, [] => []
  | _, [a] => [a]
  | 0, l => l
  | fuel + 1, a :: b :: rest =>
    match composeBase a b with
    | some c => nfcGo fuel (c :: rest)
    | none => a :: nfcGo fuel (b :: rest)

/-- NFC pass: left to right, compose each character with the next one when
the composition table allows it. -/
def nfc (l : List Char) : List Char := nfcGo l.length l

theorem nfc_nil : nfc [] = [] := rfl

theorem nfc_single (a : Char) : nfc [a] = [a] := rfl

/-- Unfolding equation of the NFC pass on a list of two or more
characters. -/
theorem nfc_cons₂ (a b : Char) (rest : List Char) :
    nfc (a :: b :: rest) =
      (match composeBase a b with
       | some c => nfc (c :: rest)
       | none => a :: nfc (b :: rest)) := by
  cases h : composeBase a b <;> simp [nfc, nfcGo, h, List.length_cons]

/-- Whitespace characters removed by Python `str.strip`, restricted to the
ASCII whitespace the game can meet. -/
def wsChars : List Char := [' ', '\t', '\n', '\r', '\x0B', '\x0C']

/-- Whitespace test for `strip`. -/
def isWs (c : Char) : Bool := wsChars.contains c

/-- Leading-whitespace removal. -/
def trimLeft (l : List Char) : List Char := l.dropWhile isWs

/-- Trailing-whitespace removal. -/
def trimRight (l : List Char) : List Char := (l.reverse.dropWhile isWs).reverse

/-- Python `str.strip` on code points. -/
def stripChars (l : List Char) : List Char := trimRight (trimLeft l)

/-- Python `str.casefold`, restricted to the modelled alphabet, where it
coincides with lowercasing. -/
def foldChar (c : Char) : Char :=
  if c = 'A' then 'a' else if c = 'B' then 'b' else if c = 'C' then 'c'
  else if c = 'D' then 'd' else if c = 'E' then 'e' else if c = 'F' then 'f'
  else if c = 'G' then 'g' else if c = 'H' then 'h' else if c = 'I' then 'i'
  else if c = 'J' then 'j' else if c = 'K' then 'k' else if c = 'L' then 'l'
  else if c = 'M' then 'm' else if c = 'N' then 'n' else if c = 'O' then 'o'
  else if c = 'P' then 'p' else if c = 'Q' then 'q' else if c = 'R' then 'r'
  else if c = 'S' then 's' else if c = 'T' then 't' else if c = 'U' then 'u'
  else if c = 'V' then 'v' else if c = 'W' then 'w' else if c = 'X' then 'x'
  else if c = 'Y' then 'y' else if c = 'Z' then 'z'
  else if c = 'Á' then 'á' else if c = 'É' then 'é' else if c = 'Í' then 'í'
  else if c = 'Ó' then 'ó' else if c = 'Ú' then 'ú' else if c = 'Ü' then 'ü'
  else if c = 'Ñ' then 'ñ' else c

/-- Normalization pipeline on code points: NFC, strip, casefold. -/
def normChars (l : List Char) : List Char := (stripChars (nfc l)).map foldChar

/-- String normalization used for answer comparison
(logic._normalize_form; the `None` guard of the source cannot arise here
because every call site passes a string). -/
def normalize_form (s : String) : String := ⟨normChars s.data⟩

/-! Round engine (src/game/logic.py).  All calls to the global random
generator are replaced by explicit draw records passed in, so each engine
operation is a pure function of the state and the draws. -/

/-- Random draws consumed by one `refresh_hands` call: the three
`random.shuffle` results (as reorderings applied to the lists being
shuffled) and the person chosen by `random_question`. -/
structure RefreshRng where
  shuffleVerbs : List String → List String
  shuffleRules1 : List RuleCard → List RuleCard
  shuffleRules2 : List RuleCard → List RuleCard
  questionPerson : String

/-- Random draws consumed by one `resolve_play` call:
`random.randint(4, 7)` damage, `random.randint(1, 3)` coins,
`random.choice([-1, 0, 1])` for the boss counterattack, the
`random.random() < 0.5` coin flips of the retention loop (one entry per
retention skill examined, surplus entries unused, exhaustion read as
`false`), `random.randint(8, 12)` bonus coins, and the draws of the
trailing hand refresh. -/
structure PlayRng where
  damageRoll : Nat
  coinRoll : Nat
  atkDelta : Int
  retainFlips : List Bool
  bonusRoll : Nat
  refresh : RefreshRng

/-- Outcome dictionary of logic.resolve_play. -/
structure Outcome where
  ok : Bool
  message : String
  damage : Nat
  coins_gained : Nat
  boss_defeated : Bool
  player_damage : Nat
  player_dead : Bool
  player_hp : Int
  produced : String
  expected : String
deriving DecidableEq, Repr

/-- Hand refresh (logic.refresh_hands): deal `base_hand_verbs` verb cards by
cycling the shuffled pool, build the rule pool preferring irregular rules
bound to a held verb, deal `base_hand_rules` rule cards by cycling, draw a
new question.  Cycling an empty list, a crash in the source, is totalized
with `getD`. -/
def refresh_hands (state : GameState) (rng : RefreshRng) : GameState :=
  let player := state.player
  let pool_copy := rng.shuffleVerbs state.verb_pool
  let hand_verbs := (List.range player.base_hand_verbs).map
    (fun i => VerbCard.mk (pool_copy.getD (i % pool_copy.length) ""))
  let current_verbs := hand_verbs.map (·.infinitive)
  let all_rules := rng.shuffleRules1 (present_indicative_rules state.lexicon)
  let generic_rules := all_rules.filter (fun r => !(pyTruthy r.verb_infinitive))
  let irregular_rules := all_rules.filter (fun r =>
    pyTruthy r.verb_infinitive && current_verbs.contains (r.verb_infinitive.getD ""))
  let pool0 := irregular_rules ++ generic_rules
  let pool1 := if pool0.length < player.base_hand_rules then generic_rules else pool0
  let pool := rng.shuffleRules2 pool1
  let hand_rules := (List.range player.base_hand_rules).map
    (fun i => pool.getD (i % pool.length) default)
  { state with
      player := { player with hand_verbs := hand_verbs, hand_rules := hand_rules },
      question := ⟨rng.questionPerson⟩ }

/-- Boss counterattack damage (logic._boss_attack_damage) for a given
`random.choice([-1, 0, 1])` draw; `max(0, (major_round - 1) // 2)` is plain
truncated `Nat` arithmetic here. -/
def bossAttackDamage (state : GameState) (delta : Int) : Nat :=
  let base : Int := 3 + ((state.major_round - 1) / 2 : Nat)
  (max 1 (base + delta)).toNat

/-- Retention loop of logic.resolve_play: walk the skills, flip one coin per
retention skill, stop at the first `true`. -/
def retainLoop : List SkillCard → List Bool → Bool
  | [], _ => false
  | s :: rest, flips =>
    if s.retain_on_play_50 then
      if flips.headD false then true else retainLoop rest flips.tail
    else retainLoop rest flips

/-- Scan for the two-character marker `->` anywhere in a character list. -/
def containsArrow : List Char → Bool
  | [] => false
  | a :: rest =>
    (match rest with
     | b :: _ => a = '-' && b = '>'
     | [] => false) || containsArrow rest

/-- Test `"->" in rule.pattern` guarding the triple-damage skill. -/
def hasArrow (r : RuleCard) : Bool := containsArrow r.pattern.data

/-- The verb card picked by a (validated) index, `player.hand_verbs[verb_index]`. -/
def playVerb (state : GameState) (verb_index : Int) : VerbCard :=
  state.player.hand_verbs.getD verb_index.toNat ⟨""⟩

/-- The rule card picked by a (validated) index, `player.hand_rules[rule_index]`. -/
def playRule (state : GameState) (rule_index : Int) : RuleCard :=
  state.player.hand_rules.getD rule_index.toNat default

/-- The produced conjugation `temp` of logic.resolve_play. -/
def playProduced (state : GameState) (verb_index rule_index : Int) : String :=
  (apply_rule_to_verb (playVerb state verb_index).infinitive (playRule state rule_index)).2

/-- The reference form `expected` of logic.resolve_play. -/
def playExpected (state : GameState) (verb_index : Int) : String :=
  expected_present_form (playVerb state verb_index).infinitive
    state.question.person state.lexicon

/-- The flag `produced_matches_expected` of logic.resolve_play. -/
def producedMatchesExpected (state : GameState) (verb_index rule_index : Int) : Bool :=
  (playExpected state verb_index != "") &&
    (normalize_form (playProduced state verb_index rule_index) ==
      normalize_form (playExpected state verb_index))

/-- The flag `success` of logic.resolve_play. -/
def playSuccess (state : GameState) (verb_index rule_index : Int) : Bool :=
  if playExpected state verb_index != "" then
    producedMatchesExpected state verb_index rule_index
  else
    (apply_rule_to_verb (playVerb state verb_index).infinitive
      (playRule state rule_index)).1 &&
    ((playRule state rule_index).person == state.question.person)

/-- The skill-boosted damage of logic.resolve_play: the base roll on success
(0 on failure), tripled once per owned triple-damage skill when the rule's
pattern contains the arrow marker. -/
def playDamage (state : GameState) (verb_index rule_index : Int) (roll : Nat) : Nat :=
  state.player.skills.foldl
    (fun d s =>
      if s.triple_damage_on_directional && hasArrow (playRule state rule_index) then d * 3
      else d)
    (if playSuccess state verb_index rule_index then roll else 0)

/-- The message `msg_prefix` of logic.resolve_play. -/
def playMsgPrefix (state : GameState) (verb_index rule_index : Int) : String :=
  let verb := playVerb state verb_index
  let rule := playRule state rule_index
  if playSuccess state verb_index rule_index then
    verb.infinitive ++ " -> " ++ playProduced state verb_index rule_index
  else
    let base_msg :=
      if boundMismatch rule verb.infinitive then
        "该变化卡仅适用于 " ++ (rule.verb_infinitive.getD "")
      else if rule.person != state.question.person &&
          !(producedMatchesExpected state verb_index rule_index) then
        "题目与变化卡不匹配"
      else "变位不正确"
    base_msg ++ "；正确答案：" ++ verb.infinitive ++ " -> " ++ playExpected state verb_index

/-- Play resolution (logic.resolve_play), returning the updated state and
the outcome dictionary. -/
def resolve_play (state : GameState) (verb_index rule_index : Int) (rng : PlayRng) :
    GameState × Outcome :=
  let player := state.player
  let boss := state.boss
  let outcome0 : Outcome :=
    { ok := true, message := "", damage := 0, coins_gained := 0,
      boss_defeated := false, player_damage := 0, player_dead := false,
      player_hp := player.hp, produced := "", expected := "" }
  if ¬(0 ≤ verb_index ∧ verb_index < (player.hand_verbs.length : Int) ∧
       0 ≤ rule_index ∧ rule_index < (player.hand_rules.length : Int)) then
    (state, { outcome0 with ok := false, message := "索引无效" })
  else
    let temp := playProduced state verb_index rule_index
    let expected := playExpected state verb_index
    let msg_prefix := playMsgPrefix state verb_index rule_index
    let damage := playDamage state verb_index rule_index rng.damageRoll
    let boss1 : Boss := { boss with hp := boss.hp - damage }
    let outcome1 := { outcome0 with produced := temp, expected := expected, damage := damage }
    let pc : Player × Outcome :=
      if damage > 0 then
        ({ player with coins := player.coins + rng.coinRoll },
         { outcome1 with coins_gained := rng.coinRoll, message := msg_prefix })
      else
        let pdmg := bossAttackDamage state rng.atkDelta
        let hp1 := player.hp - pdmg
        let o :=
          { outcome1 with
            player_damage := pdmg, player_hp := max 0 hp1,
            message := msg_prefix, player_dead := decide (hp1 ≤ 0) }
        ({ player with hp := hp1 }, o)
    let player1 := pc.1
    let outcome2 := pc.2
    let retain := retainLoop player1.skills rng.retainFlips
    let player2 := if retain then player1 else
      { player1 with hand_verbs := player1.hand_verbs.eraseIdx verb_index.toNat,
                     hand_rules := player1.hand_rules.eraseIdx rule_index.toNat }
    if boss1.hp ≤ 0 then
      let player3 := { player2 with coins := player2.coins + rng.bonusRoll }
      ({ state with player := player3, boss := boss1 },
       { outcome2 with
         boss_defeated := true,
         message := outcome2.message ++ "；击败Boss！+" ++ toString rng.bonusRoll ++ "金币" })
    else if outcome2.player_dead then
      ({ state with player := player2, boss := boss1 }, outcome2)
    else
      let state1 :=
        { state with
          player := player2, boss := boss1, subround := state.subround + 1 }
      (refresh_hands state1 rng.refresh, outcome2)

/-- Shop purchase (logic.shop_buy_direction_skill): deduct 10 coins and
append the triple-damage skill when affordable; report success. -/
def shop_buy_direction_skill (state : GameState) : GameState × Bool :=
  if state.player.coins ≥ 10 then
    let skill : SkillCard :=
      { name := "方向加成", description := "含->的变化卡伤害x3",
        cost := 10, triple_damage_on_directional := true }
    let player1 :=
      { state.player with
        coins := state.player.coins - 10,
        skills := state.player.skills ++ [skill] }
    ({ state with player := player1 }, true)
  else (state, false)

/-- Random draws consumed by one `choose_upgrade` call: the
`random.choice([1, 2, 3])` substitute for an invalid option and the draws
of the trailing hand refresh. -/
structure UpgradeRng where
  optionChoice : Int
  refresh : RefreshRng

/-- Upgrade transition (logic.choose_upgrade): next major round, fresh
scaled boss, apply the chosen (or randomly substituted) upgrade, refresh
hands. -/
def choose_upgrade (state : GameState) (option : Int) (rng : UpgradeRng) : GameState :=
  let major := state.major_round + 1
  let boss : Boss :=
    { name := "Boss R" ++ toString major,
      hp := ((20 + 10 * (major - 1) : Nat) : Int),
      base_hp_per_subround := 5 + 2 * (major - 1) }
  let opt := if option = 1 ∨ option = 2 ∨ option = 3 then option else rng.optionChoice
  let player :=
    if opt = 1 then { state.player with base_hand_verbs := state.player.base_hand_verbs + 1 }
    else if opt = 2 then { state.player with base_hand_rules := state.player.base_hand_rules + 1 }
    else if opt = 3 then { state.player with skills := state.player.skills ++
      [{ name := "保留之力", description := "50%不失去已打出卡", cost := 0,
         retain_on_play_50 := true }] }
    else state.player
  refresh_hands
    { state with major_round := major, subround := 1, boss := boss, player := player }
    rng.refresh

/-- Fallback verb pool of logic.start_new_game. -/
def fallbackVerbPool : List String :=
  ["hablar", "comer", "vivir", "estudiar", "leer", "escribir",
   "amar", "beber", "abrir", "correr", "saltar", "cantar"]

/-- Infinitive listing (lexicon.VerbLexicon.list_infinitives): the truthy
infinitives of all records. -/
def list_infinitives (L : VerbLexicon) : List String :=
  L.verbs.filterMap (fun v => if v.infinitive ≠ "" then some v.infinitive else none)

/-- Game start (logic.start_new_game): use the loaded lexicon's infinitives
as the pool, or the fallback pool (dropping the lexicon) when loading
failed or produced no infinitives; then deal the first hands.  The
exception path of the source is the `none`/empty cases of `loaded`. -/
def start_new_game (loaded : Option VerbLexicon) (rng : RefreshRng) : GameState :=
  let pl : List String × Option VerbLexicon :=
    match loaded with
    | some L =>
      if list_infinitives L = [] then (fallbackVerbPool, none)
      else (list_infinitives L, some L)
    | none => (fallbackVerbPool, none)
  refresh_hands
    { player := {}, boss := { name := "初级Boss", hp := 20, base_hp_per_subround := 5 },
      major_round := 1, subround := 1, question := ⟨""⟩,
      verb_pool := pl.1, lexicon := pl.2 } rng

/-! Helper lemmas about the Python-style string primitives. -/

theorem data_inj {s t : String} (h : s.data = t.data) : s = t := by
  cases s; cases t; exact congrArg String.mk h

theorem data_append (s t : String) : (s ++ t).data = s.data ++ t.data := rfl

theorem pyEndsWith_iff {s t : String} : pyEndsWith s t = true ↔ t.data <:+ s.data := by
  simp [pyEndsWith]

/-- Splitting a string at a known suffix: take the complement, append the
suffix, recover the string. -/
theorem pyEndsWith_split {s t : String} (h : pyEndsWith s t = true) :
    pyTake s (pyLen s - pyLen t) ++ t = s := by
  rw [pyEndsWith_iff] at h
  obtain ⟨p, hp⟩ := h
  apply data_inj
  rw [data_append]
  show (s.data.take (s.data.length - t.data.length)) ++ t.data = s.data
  rw [← hp, List.length_append, Nat.add_sub_cancel, List.take_left]

/-- A known suffix is recovered by dropping the complement. -/
theorem pyEndsWith_drop {s t : String} (h : pyEndsWith s t = true) :
    pyDrop s (pyLen s - pyLen t) = t := by
  rw [pyEndsWith_iff] at h
  obtain ⟨p, hp⟩ := h
  apply data_inj
  show s.data.drop (s.data.length - t.data.length) = t.data
  rw [← hp, List.length_append, Nat.add_sub_cancel, List.drop_left]

theorem pyLen_pyDrop (s : String) (n : Nat) : pyLen (pyDrop s n) = pyLen s - n := by
  simp [pyLen, pyDrop]

theorem pyTake_append_pyDrop (s : String) (n : Nat) : pyTake s n ++ pyDrop s n = s := by
  apply data_inj
  rw [data_append]
  exact List.take_append_drop n s.data

/-! Helper lemmas about ending detection and rule application. -/

theorem detect_ending_eq_empty_iff (inf : String) :
    detect_ending inf = "" ↔
      ¬(pyEndsWith inf "ar" = true ∨ pyEndsWith inf "er" = true ∨ pyEndsWith inf "ir" = true) := by
  unfold detect_ending
  split_ifs <;> simp_all

theorem detect_ending_endsWith {inf : String} (h : detect_ending inf ≠ "") :
    pyEndsWith inf (detect_ending inf) = true := by
  unfold detect_ending at h ⊢
  split_ifs at h ⊢ <;> simp_all

theorem detect_ending_mem {inf : String} (h : detect_ending inf ≠ "") :
    detect_ending inf = "ar" ∨ detect_ending inf = "er" ∨ detect_ending inf = "ir" := by
  unfold detect_ending at h ⊢
  split_ifs <;> simp_all

theorem pyLen_detect_ending {inf : String} (h : detect_ending inf ≠ "") :
    pyLen (detect_ending inf) = 2 := by
  rcases detect_ending_mem h with h2 | h2 | h2 <;> rw [h2] <;> rfl

/-- The bare stem and the detected ending reassemble the infinitive. -/
theorem bareStem_append_detect {inf : String} (h : detect_ending inf ≠ "") :
    pyTake inf (pyLen inf - pyLen (detect_ending inf)) ++ detect_ending inf = inf :=
  pyEndsWith_split (detect_ending_endsWith h)

theorem pyEndsWith_er_not_ar {inf : String} (h : pyEndsWith inf "er" = true) :
    pyEndsWith inf "ar" = false := by
  by_contra hc
  have har : pyEndsWith inf "ar" = true := by
    cases hx : pyEndsWith inf "ar" <;> simp_all
  have h1 := pyEndsWith_drop h
  have h2 := pyEndsWith_drop har
  rw [show pyLen "er" = 2 from rfl] at h1
  rw [show pyLen "ar" = 2 from rfl] at h2
  rw [h1] at h2
  exact absurd h2 (by decide)

theorem pyEndsWith_ir_not_ar {inf : String} (h : pyEndsWith inf "ir" = true) :
    pyEndsWith inf "ar" = false := by
  by_contra hc
  have har : pyEndsWith inf "ar" = true := by
    cases hx : pyEndsWith inf "ar" <;> simp_all
  have h1 := pyEndsWith_drop h
  have h2 := pyEndsWith_drop har
  rw [show pyLen "ir" = 2 from rfl] at h1
  rw [show pyLen "ar" = 2 from rfl] at h2
  rw [h1] at h2
  exact absurd h2 (by decide)

theorem pyEndsWith_ir_not_er {inf : String} (h : pyEndsWith inf "ir" = true) :
    pyEndsWith inf "er" = false := by
  by_contra hc
  have her : pyEndsWith inf "er" = true := by
    cases hx : pyEndsWith inf "er" <;> simp_all
  have h1 := pyEndsWith_drop h
  have h2 := pyEndsWith_drop her
  rw [show pyLen "ir" = 2 from rfl] at h1
  rw [show pyLen "er" = 2 from rfl] at h2
  rw [h1] at h2
  exact absurd h2 (by decide)

theorem detect_ending_ar {inf : String} (h : pyEndsWith inf "ar" = true) :
    detect_ending inf = "ar" := by simp [detect_ending, h]

theorem detect_ending_er {inf : String} (h : pyEndsWith inf "er" = true) :
    detect_ending inf = "er" := by
  simp [detect_ending, h, pyEndsWith_er_not_ar h]

theorem detect_ending_ir {inf : String} (h : pyEndsWith inf "ir" = true) :
    detect_ending inf = "ir" := by
  simp [detect_ending, h, pyEndsWith_ir_not_ar h, pyEndsWith_ir_not_er h]

theorem boundMismatch_iff (r : RuleCard) (inf : String) :
    boundMismatch r inf = true ↔
      ∃ v, r.verb_infinitive = some v ∧ v ≠ "" ∧ v ≠ inf := by
  cases h : r.verb_infinitive <;> simp [boundMismatch, h]

/-! Concrete fixtures used by the witness theorems. -/

/-- First person-label, used by witnesses. -/
def wPerson : String := "直陈式现在时+第一人称单数"

/-- Generic ar-to-o first-person rule, used by witnesses. -/
def wRuleArO : RuleCard := { person := wPerson, ending_from := some "ar", ending_to := some "o" }

/-- Identity reordering draws, used by witnesses. -/
def wIdRefresh : RefreshRng := ⟨id, id, id, wPerson⟩

/-- Fixed play draws, used by witnesses. -/
def wPlayRng : PlayRng := ⟨5, 2, 0, [], 9, wIdRefresh⟩

/-- Small concrete game state, used by witnesses. -/
def wState : GameState :=
  { player := { hand_verbs := [⟨"hablar"⟩, ⟨"comer"⟩], hand_rules := [wRuleArO] },
    boss := ⟨"B", 30, 5⟩, major_round := 1, subround := 1,
    question := ⟨wPerson⟩, verb_pool := ["hablar", "comer"], lexicon := none }

/-! Claim C7. -/

/-- C7: for every state and every index pair where `verb_index` or
`rule_index` is out of the current hand's bounds (including negative
values), `resolve_play` returns an outcome with `ok = false` and zero
damage and coins, and leaves the entire game state unchanged (player hp,
coins, skills, both hands, boss, round counters, question). -/
theorem C7_invalid_index_frame (state : GameState) (verb_index rule_index : Int) (rng : PlayRng)
    (h : ¬(0 ≤ verb_index ∧ verb_index < (state.player.hand_verbs.length : Int)) ∨
         ¬(0 ≤ rule_index ∧ rule_index < (state.player.hand_rules.length : Int))) :
    (resolve_play state verb_index rule_index rng).1 = state ∧
    (resolve_play state verb_index rule_index rng).2.ok = false ∧
    (resolve_play state verb_index rule_index rng).2.damage = 0 ∧
    (resolve_play state verb_index rule_index rng).2.coins_gained = 0 ∧
    (resolve_play state verb_index rule_index rng).1.player = state.player ∧
    (resolve_play state verb_index rule_index rng).1.boss = state.boss ∧
    (resolve_play state verb_index rule_index rng).1.major_round = state.major_round ∧
    (resolve_play state verb_index rule_index rng).1.subround = state.subround ∧
    (resolve_play state verb_index rule_index rng).1.question = state.question := by
  have hcond : ¬(0 ≤ verb_index ∧ verb_index < (state.player.hand_verbs.length : Int) ∧
      0 ≤ rule_index ∧ rule_index < (state.player.hand_rules.length : Int)) := by tauto
  simp [resolve_play, hcond]

/-- C7 instantiated: a negative verb index leaves the fixture state
untouched and reports a failed selection. -/
theorem C7_invalid_index_frame_witness :
    (resolve_play wState (-1) 0 wPlayRng).1 = wState ∧
    (resolve_play wState (-1) 0 wPlayRng).2.ok = false ∧
    (resolve_play wState (-1) 0 wPlayRng).2.damage = 0 ∧
    (resolve_play wState (-1) 0 wPlayRng).2.coins_gained = 0 ∧
    (resolve_play wState (-1) 0 wPlayRng).1.player = wState.player ∧
    (resolve_play wState (-1) 0 wPlayRng).1.boss = wState.boss ∧
    (resolve_play wState (-1) 0 wPlayRng).1.major_round = wState.major_round ∧
    (resolve_play wState (-1) 0 wPlayRng).1.subround = wState.subround ∧
    (resolve_play wState (-1) 0 wPlayRng).1.question = wState.question :=
  C7_invalid_index_frame wState (-1) 0 wPlayRng (Or.inl (by decide))

/-! Claim C8. -/

/-- C8: for every infinitive ending in ar/er/ir and each of the six person
indices, `expected_present_form` without a lexicon returns the bare stem
(infinitive minus the two-letter ending class) concatenated with the
regular-suffix table entry for that class and index; it returns `""` for an
unrecognized person and for an infinitive outside the three classes. -/
theorem C8_regular_expected_form (inf person : String) (i : Nat) :
    (i < 6 → pyEndsWith inf "ar" = true →
      expected_present_form inf (PERSONS.getD i "") none =
        pyTake inf (pyLen inf - 2) ++ ["o", "as", "a", "amos", "áis", "an"].getD i "") ∧
    (i < 6 → pyEndsWith inf "er" = true →
      expected_present_form inf (PERSONS.getD i "") none =
        pyTake inf (pyLen inf - 2) ++ ["o", "es", "e", "emos", "éis", "en"].getD i "") ∧
    (i < 6 → pyEndsWith inf "ir" = true →
      expected_present_form inf (PERSONS.getD i "") none =
        pyTake inf (pyLen inf - 2) ++ ["o", "es", "e", "imos", "ís", "en"].getD i "") ∧
    (person ∉ PERSONS → expected_present_form inf person none = "") ∧
    (¬(pyEndsWith inf "ar" = true ∨ pyEndsWith inf "er" = true ∨ pyEndsWith inf "ir" = true) →
      expected_present_form inf person none = "") := by
  refine ⟨fun hi har => ?_, fun hi her => ?_, fun hi hir => ?_, fun hp => ?_, fun hend => ?_⟩
  · have hd := detect_ending_ar har
    interval_cases i <;>
      simp [expected_present_form, hd, PERSONS, regularEndingsGet, REGULAR_ENDINGS,
        show pyLen "ar" = 2 from rfl]
  · have hd := detect_ending_er her
    interval_cases i <;>
      simp [expected_present_form, hd, PERSONS, regularEndingsGet, REGULAR_ENDINGS,
        show pyLen "er" = 2 from rfl]
  · have hd := detect_ending_ir hir
    interval_cases i <;>
      simp [expected_present_form, hd, PERSONS, regularEndingsGet, REGULAR_ENDINGS,
        show pyLen "ir" = 2 from rfl]
  · have hnone : PERSONS.findIdx? (fun p => p == person) = none := by
      rw [List.findIdx?_eq_none_iff]
      intro x hx
      simp only [beq_eq_false_iff_ne, ne_eq]
      exact fun he => hp (he ▸ hx)
    simp [expected_present_form, hnone]
  · have hd : detect_ending inf = "" := (detect_ending_eq_empty_iff inf).2 hend
    simp [expected_present_form, hd]

/-- C8 instantiated: "hablar" with the second-person-plural label yields
"habláis", and an unknown person label yields the empty string. -/
theorem C8_regular_expected_form_witness :
    expected_present_form "hablar" (PERSONS.getD 4 "") none =
      pyTake "hablar" (pyLen "hablar" - 2) ++ ["o", "as", "a", "amos", "áis", "an"].getD 4 "" ∧
    expected_present_form "xyz" "q" none = "" :=
  ⟨(C8_regular_expected_form "hablar" "q" 4).1 (by decide) (by decide),
   (C8_regular_expected_form "xyz" "q" 4).2.2.2.2 (by decide)⟩

/-! Claim C3. -/

/-- C3 counterexample: a rule with all stem and ending fields unset and no
verb binding applied to the infinitive "x" (which has no detectable ending
class) fails and keeps the infinitive, where the claim predicts success
with the unchanged infinitive. -/
theorem C3_all_unset_cex :
    apply_rule_to_verb "x" ({ person := wPerson } : RuleCard) = (false, "x") ∧
    ({ person := wPerson } : RuleCard).stem_from = none ∧
    ({ person := wPerson } : RuleCard).stem_to = none ∧
    ({ person := wPerson } : RuleCard).ending_from = none ∧
    ({ person := wPerson } : RuleCard).ending_to = none ∧
    ({ person := wPerson } : RuleCard).verb_infinitive = none := by decide

/-- C3 amended: `apply_rule_to_verb` fails (returning the unmodified
infinitive) exactly when the rule is bound to a different verb, the
infinitive does not end in ar/er/ir, the rule's `ending_from` is set and
invalid, set and different from the actual ending class, or the rule's
`stem_from` is set and differs from the bare stem; and when all stem and
ending fields are unset, the rule is not bound to a different verb, AND the
infinitive's ending class is detectable, it succeeds with the unchanged
infinitive. -/
theorem C3_apply_failure_conditions (inf : String) (r : RuleCard) :
    (apply_rule_to_verb inf r = (false, inf) ↔
      (∃ v, r.verb_infinitive = some v ∧ v ≠ "" ∧ v ≠ inf) ∨
      ¬(pyEndsWith inf "ar" = true ∨ pyEndsWith inf "er" = true ∨ pyEndsWith inf "ir" = true) ∨
      (∃ e, r.ending_from = some e ∧ e ≠ "ar" ∧ e ≠ "er" ∧ e ≠ "ir") ∨
      (∃ e, r.ending_from = some e ∧ e ≠ detect_ending inf) ∨
      (∃ s, r.stem_from = some s ∧
        s ≠ pyTake inf (pyLen inf - pyLen (detect_ending inf)))) ∧
    ((∀ v, r.verb_infinitive = some v → v = "" ∨ v = inf) →
      r.stem_from = none → r.stem_to = none → r.ending_from = none → r.ending_to = none →
      detect_ending inf ≠ "" →
      apply_rule_to_verb inf r = (true, inf)) := by
  constructor
  · simp only [apply_rule_to_verb]
    split_ifs with h1 h2 h3 h4 h5
    · simp only [true_iff, eq_self_iff_true]
      exact Or.inl ((boundMismatch_iff r inf).1 h1)
    · simp only [true_iff, eq_self_iff_true]
      exact Or.inr (Or.inl ((detect_ending_eq_empty_iff inf).1 h2))
    · simp only [true_iff, eq_self_iff_true]
      cases he : r.ending_from with
      | none => rw [he] at h3; simp at h3
      | some e =>
        rw [he] at h3
        simp at h3
        exact Or.inr (Or.inr (Or.inl ⟨e, rfl, h3.1, h3.2.1, h3.2.2⟩))
    · simp only [true_iff, eq_self_iff_true]
      cases he : r.ending_from with
      | none => rw [he] at h4; simp at h4
      | some e =>
        rw [he] at h4
        simp at h4
        exact Or.inr (Or.inr (Or.inr (Or.inl ⟨e, rfl, h4⟩)))
    · simp only [true_iff, eq_self_iff_true]
      cases hs : r.stem_from with
      | none => rw [hs] at h5; simp at h5
      | some s =>
        rw [hs] at h5
        simp at h5
        exact Or.inr (Or.inr (Or.inr (Or.inr ⟨s, rfl, h5⟩)))
    · constructor
      · intro h
        exact absurd (congrArg Prod.fst h) (by simp)
      · rintro (⟨v, hv, hne, hni⟩ | hb | ⟨e, he, hc⟩ | ⟨e, he, hd⟩ | ⟨s, hs, hsne⟩)
        · exact absurd ((boundMismatch_iff r inf).2 ⟨v, hv, hne, hni⟩) h1
        · exact absurd ((detect_ending_eq_empty_iff inf).2 hb) h2
        · rw [he] at h3; simp at h3; tauto
        · rw [he] at h4; simp at h4; exact (hd h4).elim
        · rw [hs] at h5; simp at h5; exact (hsne h5).elim
  · intro hbound hsf hst hef het hdet
    have hb : boundMismatch r inf = false := by
      cases hv : r.verb_infinitive with
      | none => simp [boundMismatch, hv]
      | some v => rcases hbound v hv with h | h <;> simp [boundMismatch, hv, h]
    have key := bareStem_append_detect hdet
    simp [apply_rule_to_verb, hb, hsf, hst, hef, het, hdet, key]

/-- C3 amended, instantiated: the all-unset unbound rule applied to
"hablar" succeeds and returns "hablar" unchanged. -/
theorem C3_apply_failure_conditions_witness :
    apply_rule_to_verb "hablar" ({ person := wPerson } : RuleCard) = (true, "hablar") :=
  (C3_apply_failure_conditions "hablar" { person := wPerson }).2
    (fun v h => by cases h) rfl rfl rfl rfl (by decide)

/-! Helper lemmas for the generator/applier round trip. -/

theorem pyLen_eq_zero {s : String} : pyLen s = 0 ↔ s = "" := by
  constructor
  · intro h
    apply data_inj
    have h2 : s.data.length = 0 := h
    show s.data = []
    exact List.length_eq_zero.mp h2
  · intro h; subst h; rfl

theorem append_empty_str (s : String) : s ++ "" = s := by
  apply data_inj; rw [data_append]; simp [show ("" : String).data = [] from rfl]

/-- The derived irregular stem and suffix reassemble the target form. -/
theorem stemPrime_append_endingPrime (base target : String) (ht : target ≠ "") :
    stemPrimeFor base target ++ endingPrimeFor base target = target := by
  have hn : 1 ≤ pyLen target := by
    rcases Nat.eq_zero_or_pos (pyLen target) with h | h
    · exact absurd (pyLen_eq_zero.1 h) ht
    · exact h
  unfold stemPrimeFor endingPrimeFor
  cases hf : (suffixCandidates base).find? (fun e => pyEndsWith target e) with
  | some e =>
    have hsuf : pyEndsWith target e = true := List.find?_some hf
    by_cases he : e = ""
    · subst he
      simp [append_empty_str]
    · simp [he, pyEndsWith_split hsuf]
  | none =>
    have hlep : pyLen (pyDrop target (pyLen target - 2)) = pyLen target - (pyLen target - 2) :=
      pyLen_pyDrop target (pyLen target - 2)
    have hne : pyDrop target (pyLen target - 2) ≠ "" := by
      intro h
      rw [h] at hlep
      simp [show pyLen "" = 0 from rfl] at hlep
      omega
    simp only [hne, if_true, ne_eq, not_false_iff]
    rw [hlep, show pyLen target - (pyLen target - (pyLen target - 2)) = pyLen target - 2 by omega]
    exact pyTake_append_pyDrop target (pyLen target - 2)

/-- When the infinitive has a detectable ending class the generator's base
choice coincides with `detect_ending`. -/
theorem irregularBase_eq_detect {inf : String} (hdet : detect_ending inf ≠ "") :
    irregularBase inf = detect_ending inf := by
  unfold irregularBase
  unfold detect_ending at hdet ⊢
  split_ifs <;> simp_all

/-- Generator/applier consistency for one lexicon-derived rule, provided
the bound infinitive has a detectable ending class. -/
theorem irregular_roundtrip (inf person target : String)
    (hdet : detect_ending inf ≠ "") (ht : target ≠ "") :
    apply_rule_to_verb inf (irregularRuleFor inf person target) = (true, target) := by
  have hb := irregularBase_eq_detect hdet
  have hre := stemPrime_append_endingPrime (irregularBase inf) target ht
  rw [hb] at hre
  have hbm : ∀ p st st2 ef et,
      boundMismatch
        { person := p, stem_from := st, stem_to := st2, ending_from := ef,
          ending_to := et, verb_infinitive := some inf } inf = false := by
    intros; simp [boundMismatch]
  have hvalid : decide (detect_ending inf ≠ "ar" ∧ detect_ending inf ≠ "er" ∧
      detect_ending inf ≠ "ir") = false := by
    rcases detect_ending_mem hdet with h | h | h <;> simp [h]
  simp only [irregularRuleFor, apply_rule_to_verb, hb]
  by_cases hsp : stemPrimeFor (detect_ending inf) target =
      pyTake inf (pyLen inf - pyLen (detect_ending inf))
  · simp [hsp, hbm, hvalid, hdet, bne_self_eq_false]
    rw [← hsp]
    exact hre
  · simp [hsp, hbm, hvalid, hdet, bne_self_eq_false, hre]

/-! Claim C1. -/

/-- One-entry lexicon whose infinitive "x" has no detectable ending class,
used to refute C1 as stated. -/
def c1Lex : VerbLexicon := ⟨[⟨"x", [(wPerson, "y")]⟩]⟩

/-- C1 counterexample: the Rule Generator emits an irregular rule for the
lexicon entry ("x", first person, recorded form "y"), but applying that
rule to its bound verb fails and returns "x", not the recorded "y". -/
theorem C1_irregular_roundtrip_cex :
    irregularRuleFor "x" wPerson "y" ∈ present_indicative_rules (some c1Lex) ∧
    (irregularRuleFor "x" wPerson "y").verb_infinitive = some "x" ∧
    (irregularRuleFor "x" wPerson "y").person = wPerson ∧
    c1Lex.get_present_form "x" wPerson = some "y" ∧
    apply_rule_to_verb "x" (irregularRuleFor "x" wPerson "y") = (false, "x") ∧
    "y" ≠ "x" := by decide

/-- C1 amended: for every irregular rule the Rule Generator emits from a
lexicon entry whose bound infinitive has a detectable ar/er/ir ending
class, applying the rule to the bound infinitive succeeds and returns the
generating entry's recorded form for the rule's person. -/
theorem C1_irregular_roundtrip (L : VerbLexicon) (r : RuleCard) (inf : String)
    (hmem : r ∈ present_indicative_rules (some L))
    (hbound : r.verb_infinitive = some inf)
    (hdet : detect_ending inf ≠ "") :
    (apply_rule_to_verb inf r).1 = true ∧
    ∃ v ∈ L.verbs, v.infinitive = inf ∧
      lookupForm v.present_indicative r.person = some ((apply_rule_to_verb inf r).2) := by
  have hgen : ∀ g ∈ genericRules, g.verb_infinitive = none := by decide
  rcases List.mem_append.1 hmem with hg | hirr
  · rw [hgen r hg] at hbound; cases hbound
  · simp only [irregularRules] at hirr
    rcases List.mem_flatMap.1 hirr with ⟨v, hv, hin⟩
    by_cases hvi : v.infinitive = ""
    · rw [if_pos hvi] at hin; cases hin
    · rw [if_neg hvi] at hin
      rcases List.mem_flatMap.1 hin with ⟨p, hp, hin2⟩
      cases hlf : lookupForm v.present_indicative p with
      | none => rw [hlf] at hin2; cases hin2
      | some target =>
        rw [hlf] at hin2
        replace hin2 : r ∈ (if target = "" then ([] : List RuleCard)
          else [irregularRuleFor v.infinitive p target]) := hin2
        by_cases htz : target = ""
        · rw [if_pos htz] at hin2; cases hin2
        · rw [if_neg htz] at hin2
          have hr : r = irregularRuleFor v.infinitive p target := List.mem_singleton.1 hin2
          subst hr
          have hinf : v.infinitive = inf := by
            have hvb : (irregularRuleFor v.infinitive p target).verb_infinitive =
              some v.infinitive := rfl
            rw [hvb] at hbound
            exact Option.some.inj hbound
          rw [hinf]
          have hrt := irregular_roundtrip inf p target hdet htz
          have hperson : (irregularRuleFor inf p target).person = p := rfl
          refine ⟨by rw [hrt], v, hv, hinf, ?_⟩
          rw [hperson, hrt]
          exact hlf

/-- One-entry lexicon recording "tener" to "tengo", used by the C1 witness. -/
def c1WitLex : VerbLexicon := ⟨[⟨"tener", [(wPerson, "tengo")]⟩]⟩

/-- C1 amended, instantiated: the irregular tener-rule emitted from
`c1WitLex` applies successfully and reproduces a recorded form of the
generating entry. -/
theorem C1_irregular_roundtrip_witness :
    (apply_rule_to_verb "tener" (irregularRuleFor "tener" wPerson "tengo")).1 = true ∧
    ∃ v ∈ c1WitLex.verbs, v.infinitive = "tener" ∧
      lookupForm v.present_indicative (irregularRuleFor "tener" wPerson "tengo").person =
        some ((apply_rule_to_verb "tener" (irregularRuleFor "tener" wPerson "tengo")).2) :=
  C1_irregular_roundtrip c1WitLex (irregularRuleFor "tener" wPerson "tengo") "tener"
    (by decide) (by decide) (by decide)

/-! Shared lemmas about resolve_play. -/

theorem str_append_assoc (a b c : String) : (a ++ b) ++ c = a ++ (b ++ c) := by
  apply data_inj; simp [data_append]

theorem contains_arrow_append (l₁ l₂ : List Char) :
    containsArrow (l₁ ++ '-' :: '>' :: l₂) = true := by
  induction l₁ with
  | nil => simp [containsArrow]
  | cons a t ih => simp [containsArrow, ih]

/-- Every rule with a set ending field displays the arrow marker. -/
theorem hasArrow_of_ending (r : RuleCard) (h : r.ending_from ≠ none ∨ r.ending_to ≠ none) :
    hasArrow r = true := by
  unfold hasArrow RuleCard.pattern
  have harr : ("->" : String).data = ['-', '>'] := rfl
  by_cases hs : r.stem_from ≠ none ∨ r.stem_to ≠ none
  · rw [if_pos hs, if_pos h]
    show containsArrow (String.intercalate " + "
      ([(r.stem_from.getD "") ++ "->" ++ (r.stem_to.getD "")] ++
       [(r.ending_from.getD "") ++ "->" ++ (r.ending_to.getD "")])).data = true
    rw [show String.intercalate " + "
      ([(r.stem_from.getD "") ++ "->" ++ (r.stem_to.getD "")] ++
       [(r.ending_from.getD "") ++ "->" ++ (r.ending_to.getD "")]) =
      ((r.stem_from.getD "") ++ "->" ++ (r.stem_to.getD "")) ++ " + " ++
       ((r.ending_from.getD "") ++ "->" ++ (r.ending_to.getD "")) from rfl]
    simp only [data_append, harr, List.append_assoc, List.cons_append, List.nil_append]
    exact contains_arrow_append _ _
  · rw [if_neg hs, if_pos h]
    show containsArrow (String.intercalate " + "
      ([] ++ [(r.ending_from.getD "") ++ "->" ++ (r.ending_to.getD "")])).data = true
    rw [show String.intercalate " + "
      ([] ++ [(r.ending_from.getD "") ++ "->" ++ (r.ending_to.getD "")]) =
      (r.ending_from.getD "") ++ "->" ++ (r.ending_to.getD "") from rfl]
    simp only [data_append, harr, List.append_assoc, List.cons_append, List.nil_append]
    exact contains_arrow_append _ _

/-- Every irregular rule comes from some (infinitive, person, target). -/
theorem mem_irregularRules {lex : Option VerbLexicon} {r : RuleCard}
    (h : r ∈ irregularRules lex) : ∃ inf p t, r = irregularRuleFor inf p t := by
  cases lex with
  | none => cases h
  | some L =>
    simp only [irregularRules] at h
    rcases List.mem_flatMap.1 h with ⟨v, hv, hin⟩
    by_cases hvi : v.infinitive = ""
    · rw [if_pos hvi] at hin; cases hin
    · rw [if_neg hvi] at hin
      rcases List.mem_flatMap.1 hin with ⟨p, hp, hin2⟩
      cases hlf : lookupForm v.present_indicative p with
      | none => rw [hlf] at hin2; cases hin2
      | some target =>
        rw [hlf] at hin2
        replace hin2 : r ∈ (if target = "" then ([] : List RuleCard)
          else [irregularRuleFor v.infinitive p target]) := hin2
        by_cases htz : target = ""
        · rw [if_pos htz] at hin2; cases hin2
        · rw [if_neg htz] at hin2
          exact ⟨v.infinitive, p, target, List.mem_singleton.1 hin2⟩

set_option linter.unnecessarySeqFocus false in
theorem foldl_triple (l : List SkillCard) (d : Nat) (b : Bool) :
    l.foldl (fun d s => if s.triple_damage_on_directional && b then d * 3 else d) d =
      d * (if b then 3 ^ (l.countP (fun s => s.triple_damage_on_directional)) else 1) := by
  induction l generalizing d with
  | nil => simp
  | cons s t ih =>
    rw [List.foldl_cons, ih, List.countP_cons]
    by_cases hs : s.triple_damage_on_directional <;> by_cases hb : b <;>
      simp [hs, hb, pow_succ] <;> ring

/-- Closed form of the skill-boosted damage. -/
theorem playDamage_eq (state : GameState) (vi ri : Int) (roll : Nat) :
    playDamage state vi ri roll =
      (if playSuccess state vi ri then roll else 0) *
        (if hasArrow (playRule state ri) then
          3 ^ (state.player.skills.countP (fun s => s.triple_damage_on_directional)) else 1) :=
  foldl_triple _ _ _

/-- The success flag, characterized the way the specification states it. -/
theorem playSuccess_iff (state : GameState) (vi ri : Int) :
    playSuccess state vi ri = true ↔
      (playExpected state vi ≠ "" ∧
        normalize_form (playProduced state vi ri) = normalize_form (playExpected state vi)) ∨
      (playExpected state vi = "" ∧
        (apply_rule_to_verb (playVerb state vi).infinitive (playRule state ri)).1 = true ∧
        (playRule state ri).person = state.question.person) := by
  unfold playSuccess producedMatchesExpected playProduced
  by_cases he : playExpected state vi = "" <;> simp [he]

/-- Outcome fields of a validated play. -/
theorem resolve_play_spec (state : GameState) (vi ri : Int) (rng : PlayRng)
    (hv : 0 ≤ vi ∧ vi < (state.player.hand_verbs.length : Int) ∧
          0 ≤ ri ∧ ri < (state.player.hand_rules.length : Int)) :
    (resolve_play state vi ri rng).2.damage = playDamage state vi ri rng.damageRoll ∧
    (resolve_play state vi ri rng).2.boss_defeated =
      decide (state.boss.hp - playDamage state vi ri rng.damageRoll ≤ 0) ∧
    (resolve_play state vi ri rng).2.coins_gained =
      (if 0 < playDamage state vi ri rng.damageRoll then rng.coinRoll else 0) := by
  simp only [resolve_play, if_neg (not_not_intro hv)]
  split_ifs <;> simp_all

/-- Message of a validated play: the prefix, with the defeat notice appended
exactly when the boss's hit points were brought to zero or below. -/
theorem resolve_play_message (state : GameState) (vi ri : Int) (rng : PlayRng)
    (hv : 0 ≤ vi ∧ vi < (state.player.hand_verbs.length : Int) ∧
          0 ≤ ri ∧ ri < (state.player.hand_rules.length : Int)) :
    (resolve_play state vi ri rng).2.message =
      (if state.boss.hp - playDamage state vi ri rng.damageRoll ≤ 0 then
        playMsgPrefix state vi ri ++ "；击败Boss！+" ++ toString rng.bonusRoll ++ "金币"
      else playMsgPrefix state vi ri) := by
  simp only [resolve_play, if_neg (not_not_intro hv)]
  split_ifs <;> simp_all

/-- State after a validated play that defeats the boss: no subround advance,
no refresh, coins grown by gain plus bonus, hands at most erased. -/
theorem resolve_play_defeat_state (state : GameState) (vi ri : Int) (rng : PlayRng)
    (hv : 0 ≤ vi ∧ vi < (state.player.hand_verbs.length : Int) ∧
          0 ≤ ri ∧ ri < (state.player.hand_rules.length : Int))
    (hd : state.boss.hp - playDamage state vi ri rng.damageRoll ≤ 0) :
    (resolve_play state vi ri rng).1.subround = state.subround ∧
    (resolve_play state vi ri rng).1.question = state.question ∧
    (resolve_play state vi ri rng).1.player.coins =
      state.player.coins + (if 0 < playDamage state vi ri rng.damageRoll then rng.coinRoll else 0)
        + rng.bonusRoll ∧
    ((resolve_play state vi ri rng).1.player.hand_verbs = state.player.hand_verbs ∧
      (resolve_play state vi ri rng).1.player.hand_rules = state.player.hand_rules ∨
     (resolve_play state vi ri rng).1.player.hand_verbs =
        state.player.hand_verbs.eraseIdx vi.toNat ∧
      (resolve_play state vi ri rng).1.player.hand_rules =
        state.player.hand_rules.eraseIdx ri.toNat) ∧
    (resolve_play state vi ri rng).1.boss.hp =
      state.boss.hp - playDamage state vi ri rng.damageRoll := by
  simp only [resolve_play, if_neg (not_not_intro hv)]
  split_ifs <;> simp_all

/-! Claim C2. -/

/-- C2: for a validated play with a damage roll in [4, 7], the play deals
positive damage (and has the "infinitive -> produced" message, possibly
followed by the boss-defeat notice) exactly when an expected form exists
and the normalized produced form equals the normalized expected form, or
no expected form exists, the rule applied, and the rule's person equals
the question's person. -/
theorem C2_success_condition (state : GameState) (vi ri : Int) (rng : PlayRng)
    (hv : 0 ≤ vi ∧ vi < (state.player.hand_verbs.length : Int) ∧
          0 ≤ ri ∧ ri < (state.player.hand_rules.length : Int))
    (hroll : 4 ≤ rng.damageRoll ∧ rng.damageRoll ≤ 7) :
    (0 < (resolve_play state vi ri rng).2.damage ↔
      ((playExpected state vi ≠ "" ∧
        normalize_form (playProduced state vi ri) = normalize_form (playExpected state vi)) ∨
       (playExpected state vi = "" ∧
        (apply_rule_to_verb (playVerb state vi).infinitive (playRule state ri)).1 = true ∧
        (playRule state ri).person = state.question.person))) ∧
    (0 < (resolve_play state vi ri rng).2.damage →
      ∃ suffix, (resolve_play state vi ri rng).2.message =
        (playVerb state vi).infinitive ++ " -> " ++ playProduced state vi ri ++ suffix) := by
  have hdam := (resolve_play_spec state vi ri rng hv).1
  have h3 : 0 < (if hasArrow (playRule state ri) then
      3 ^ (state.player.skills.countP (fun s => s.triple_damage_on_directional)) else 1) := by
    split_ifs
    · exact pow_pos (by norm_num) _
    · norm_num
  constructor
  · rw [hdam, playDamage_eq]
    by_cases hs : playSuccess state vi ri
    · rw [if_pos hs]
      have hcond := (playSuccess_iff state vi ri).1 hs
      have hpos : 0 < rng.damageRoll := by omega
      exact iff_of_true (Nat.mul_pos hpos h3) hcond
    · rw [if_neg hs, zero_mul]
      exact iff_of_false (lt_irrefl 0) (fun hcond => hs ((playSuccess_iff state vi ri).2 hcond))
  · intro hpos
    have hs : playSuccess state vi ri = true := by
      by_contra hns
      rw [hdam, playDamage_eq, if_neg hns, zero_mul] at hpos
      exact absurd hpos (lt_irrefl 0)
    have hmsg := resolve_play_message state vi ri rng hv
    have hpref : playMsgPrefix state vi ri =
        (playVerb state vi).infinitive ++ " -> " ++ playProduced state vi ri := by
      simp [playMsgPrefix, hs]
    by_cases hdft : state.boss.hp - playDamage state vi ri rng.damageRoll ≤ 0
    · refine ⟨"；击败Boss！+" ++ toString rng.bonusRoll ++ "金币", ?_⟩
      rw [hmsg, if_pos hdft, hpref]
      apply data_inj
      simp [data_append]
    · exact ⟨"", by rw [hmsg, if_neg hdft, hpref, append_empty_str]⟩

/-- C2 instantiated: the fixture play "hablar" with the ar-to-o rule under
the first-person question succeeds. -/
theorem C2_success_condition_witness :
    (0 < (resolve_play wState 0 0 wPlayRng).2.damage ↔
      ((playExpected wState 0 ≠ "" ∧
        normalize_form (playProduced wState 0 0) = normalize_form (playExpected wState 0)) ∨
       (playExpected wState 0 = "" ∧
        (apply_rule_to_verb (playVerb wState 0).infinitive (playRule wState 0)).1 = true ∧
        (playRule wState 0).person = wState.question.person))) ∧
    (0 < (resolve_play wState 0 0 wPlayRng).2.damage →
      ∃ suffix, (resolve_play wState 0 0 wPlayRng).2.message =
        (playVerb wState 0).infinitive ++ " -> " ++ playProduced wState 0 0 ++ suffix) :=
  C2_success_condition wState 0 0 wPlayRng (by decide) (by decide)

/-! Claim C5. -/

/-- C5: whenever a validated play brings the boss's hit points to zero or
below, the outcome is marked boss-defeated, the player's coins grow by the
normal gain plus the bonus roll from [8, 12], the defeat notice is appended
to the message, and the call returns without advancing the subround and
without refreshing the hands or question (the hands are at most the played
cards' removal). -/
theorem C5_boss_defeat_frame (state : GameState) (vi ri : Int) (rng : PlayRng)
    (hv : 0 ≤ vi ∧ vi < (state.player.hand_verbs.length : Int) ∧
          0 ≤ ri ∧ ri < (state.player.hand_rules.length : Int))
    (hbonus : 8 ≤ rng.bonusRoll ∧ rng.bonusRoll ≤ 12)
    (hd : state.boss.hp - playDamage state vi ri rng.damageRoll ≤ 0) :
    (resolve_play state vi ri rng).2.boss_defeated = true ∧
    (resolve_play state vi ri rng).1.player.coins =
      state.player.coins + (resolve_play state vi ri rng).2.coins_gained + rng.bonusRoll ∧
    8 ≤ rng.bonusRoll ∧ rng.bonusRoll ≤ 12 ∧
    (resolve_play state vi ri rng).2.message =
      playMsgPrefix state vi ri ++ "；击败Boss！+" ++ toString rng.bonusRoll ++ "金币" ∧
    (resolve_play state vi ri rng).1.subround = state.subround ∧
    (resolve_play state vi ri rng).1.question = state.question ∧
    ((resolve_play state vi ri rng).1.player.hand_verbs = state.player.hand_verbs ∧
      (resolve_play state vi ri rng).1.player.hand_rules = state.player.hand_rules ∨
     (resolve_play state vi ri rng).1.player.hand_verbs =
        state.player.hand_verbs.eraseIdx vi.toNat ∧
      (resolve_play state vi ri rng).1.player.hand_rules =
        state.player.hand_rules.eraseIdx ri.toNat) ∧
    (resolve_play state vi ri rng).1.boss.hp =
      state.boss.hp - playDamage state vi ri rng.damageRoll := by
  obtain ⟨hdam, hbd, hcg⟩ := resolve_play_spec state vi ri rng hv
  obtain ⟨hsub, hq, hcoins, hhands, hbhp⟩ := resolve_play_defeat_state state vi ri rng hv hd
  refine ⟨?_, ?_, hbonus.1, hbonus.2, ?_, hsub, hq, hhands, hbhp⟩
  · rw [hbd]; exact decide_eq_true hd
  · rw [hcoins, hcg]
  · rw [resolve_play_message state vi ri rng hv, if_pos hd]

/-- Fixture state with a nearly dead boss, for the C5 witness. -/
def wStateKill : GameState := { wState with boss := ⟨"B", 3, 5⟩ }

/-- C5 instantiated: a 5-damage success against a 3-hp boss defeats it,
pays the bonus, and does not advance the subround or refresh anything. -/
theorem C5_boss_defeat_frame_witness :
    (resolve_play wStateKill 0 0 wPlayRng).2.boss_defeated = true ∧
    (resolve_play wStateKill 0 0 wPlayRng).1.player.coins =
      wStateKill.player.coins + (resolve_play wStateKill 0 0 wPlayRng).2.coins_gained
        + wPlayRng.bonusRoll ∧
    8 ≤ wPlayRng.bonusRoll ∧ wPlayRng.bonusRoll ≤ 12 ∧
    (resolve_play wStateKill 0 0 wPlayRng).2.message =
      playMsgPrefix wStateKill 0 0 ++ "；击败Boss！+" ++ toString wPlayRng.bonusRoll ++ "金币" ∧
    (resolve_play wStateKill 0 0 wPlayRng).1.subround = wStateKill.subround ∧
    (resolve_play wStateKill 0 0 wPlayRng).1.question = wStateKill.question ∧
    ((resolve_play wStateKill 0 0 wPlayRng).1.player.hand_verbs =
        wStateKill.player.hand_verbs ∧
      (resolve_play wStateKill 0 0 wPlayRng).1.player.hand_rules =
        wStateKill.player.hand_rules ∨
     (resolve_play wStateKill 0 0 wPlayRng).1.player.hand_verbs =
        wStateKill.player.hand_verbs.eraseIdx (Int.toNat 0) ∧
      (resolve_play wStateKill 0 0 wPlayRng).1.player.hand_rules =
        wStateKill.player.hand_rules.eraseIdx (Int.toNat 0)) ∧
    (resolve_play wStateKill 0 0 wPlayRng).1.boss.hp =
      wStateKill.boss.hp - playDamage wStateKill 0 0 wPlayRng.damageRoll :=
  C5_boss_defeat_frame wStateKill 0 0 wPlayRng (by decide) (by decide) (by decide)

/-! Claim C10. -/

/-- C10: every rule the generator emits, generic or irregular, has both
ending fields set and a pattern containing the arrow marker; consequently
any validated play with a rule whose pattern shows the arrow has its base
damage multiplied by 3 to the power of the number of owned triple-damage
skills. -/
theorem C10_directional_rules (lex : Option VerbLexicon) (r : RuleCard)
    (state : GameState) (vi ri : Int) (rng : PlayRng)
    (hmem : r ∈ present_indicative_rules lex)
    (hv : 0 ≤ vi ∧ vi < (state.player.hand_verbs.length : Int) ∧
          0 ≤ ri ∧ ri < (state.player.hand_rules.length : Int)) :
    (r.ending_from ≠ none ∧ r.ending_to ≠ none ∧ hasArrow r = true) ∧
    (hasArrow (playRule state ri) = true →
      (resolve_play state vi ri rng).2.damage =
        (if playSuccess state vi ri then rng.damageRoll else 0) *
          3 ^ (state.player.skills.countP (fun s => s.triple_damage_on_directional))) := by
  constructor
  · have hef : r.ending_from ≠ none ∧ r.ending_to ≠ none := by
      rcases List.mem_append.1 hmem with hg | hirr
      · exact (by decide : ∀ g ∈ genericRules,
          g.ending_from ≠ none ∧ g.ending_to ≠ none) r hg
      · obtain ⟨inf, p, t, rfl⟩ := mem_irregularRules hirr
        exact ⟨by simp [irregularRuleFor], by simp [irregularRuleFor]⟩
    exact ⟨hef.1, hef.2, hasArrow_of_ending r (Or.inl hef.1)⟩
  · intro harrow
    rw [(resolve_play_spec state vi ri rng hv).1, playDamage_eq, if_pos harrow]

/-- C10 instantiated: the fixture ar-to-o rule is generator-emitted and
directional, and the fixture play's damage is the base roll times 3^0. -/
theorem C10_directional_rules_witness :
    ((wRuleArO.ending_from ≠ none ∧ wRuleArO.ending_to ≠ none ∧ hasArrow wRuleArO = true) ∧
    (hasArrow (playRule wState 0) = true →
      (resolve_play wState 0 0 wPlayRng).2.damage =
        (if playSuccess wState 0 0 then wPlayRng.damageRoll else 0) *
          3 ^ (wState.player.skills.countP (fun s => s.triple_damage_on_directional)))) :=
  C10_directional_rules none wRuleArO wState 0 0 wPlayRng (by decide) (by decide)

/-! Claim C6. -/

/-- Hand refresh replaces both hands at exactly the capacities, replaces the
question, and touches nothing else of the player or state counters. -/
theorem refresh_hands_spec (state : GameState) (rng : RefreshRng) :
    (refresh_hands state rng).player.hand_verbs.length = state.player.base_hand_verbs ∧
    (refresh_hands state rng).player.hand_rules.length = state.player.base_hand_rules ∧
    (refresh_hands state rng).question = ⟨rng.questionPerson⟩ ∧
    (refresh_hands state rng).player.base_hand_verbs = state.player.base_hand_verbs ∧
    (refresh_hands state rng).player.base_hand_rules = state.player.base_hand_rules ∧
    (refresh_hands state rng).player.skills = state.player.skills ∧
    (refresh_hands state rng).player.hp = state.player.hp ∧
    (refresh_hands state rng).player.coins = state.player.coins ∧
    (refresh_hands state rng).boss = state.boss ∧
    (refresh_hands state rng).major_round = state.major_round ∧
    (refresh_hands state rng).subround = state.subround := by
  simp [refresh_hands]

/-- The retention skill granted by upgrade option 3. -/
def retentionSkill : SkillCard :=
  { name := "保留之力", description := "50%不失去已打出卡", cost := 0, retain_on_play_50 := true }

/-- C6: `choose_upgrade` increments the major round, resets the subround to
1, installs a boss with hit points 20 + 10×(new round − 1) and base damage
5 + 2×(new round − 1); the effective option (the given one if in {1,2,3},
else the random substitute, itself in {1,2,3}) adds one verb slot, one rule
slot, or the retention skill; and hands are refreshed to the new
capacities afterwards. -/
theorem C6_choose_upgrade_spec (state : GameState) (option : Int) (rng : UpgradeRng)
    (hc : rng.optionChoice = 1 ∨ rng.optionChoice = 2 ∨ rng.optionChoice = 3) :
    (choose_upgrade state option rng).major_round = state.major_round + 1 ∧
    (choose_upgrade state option rng).subround = 1 ∧
    (choose_upgrade state option rng).boss.hp =
      ((20 + 10 * ((state.major_round + 1) - 1) : Nat) : Int) ∧
    (choose_upgrade state option rng).boss.base_hp_per_subround =
      5 + 2 * ((state.major_round + 1) - 1) ∧
    ((if option = 1 ∨ option = 2 ∨ option = 3 then option else rng.optionChoice) = 1 →
      (choose_upgrade state option rng).player.base_hand_verbs =
        state.player.base_hand_verbs + 1 ∧
      (choose_upgrade state option rng).player.base_hand_rules =
        state.player.base_hand_rules ∧
      (choose_upgrade state option rng).player.skills = state.player.skills) ∧
    ((if option = 1 ∨ option = 2 ∨ option = 3 then option else rng.optionChoice) = 2 →
      (choose_upgrade state option rng).player.base_hand_rules =
        state.player.base_hand_rules + 1 ∧
      (choose_upgrade state option rng).player.base_hand_verbs =
        state.player.base_hand_verbs ∧
      (choose_upgrade state option rng).player.skills = state.player.skills) ∧
    ((if option = 1 ∨ option = 2 ∨ option = 3 then option else rng.optionChoice) = 3 →
      (choose_upgrade state option rng).player.skills =
        state.player.skills ++ [retentionSkill] ∧
      (choose_upgrade state option rng).player.base_hand_verbs =
        state.player.base_hand_verbs ∧
      (choose_upgrade state option rng).player.base_hand_rules =
        state.player.base_hand_rules) ∧
    (¬(option = 1 ∨ option = 2 ∨ option = 3) →
      (if option = 1 ∨ option = 2 ∨ option = 3 then option else rng.optionChoice) =
        rng.optionChoice) ∧
    ((if option = 1 ∨ option = 2 ∨ option = 3 then option else rng.optionChoice) = 1 ∨
     (if option = 1 ∨ option = 2 ∨ option = 3 then option else rng.optionChoice) = 2 ∨
     (if option = 1 ∨ option = 2 ∨ option = 3 then option else rng.optionChoice) = 3) ∧
    (choose_upgrade state option rng).player.hand_verbs.length =
      (choose_upgrade state option rng).player.base_hand_verbs ∧
    (choose_upgrade state option rng).player.hand_rules.length =
      (choose_upgrade state option rng).player.base_hand_rules ∧
    (choose_upgrade state option rng).question = ⟨rng.refresh.questionPerson⟩ := by
  simp only [choose_upgrade, retentionSkill]
  split_ifs <;> simp_all [refresh_hands]

/-- C6 instantiated at option 1 on the fixture state. -/
theorem C6_choose_upgrade_spec_witness :
    (choose_upgrade wState 1 ⟨2, wIdRefresh⟩).major_round = wState.major_round + 1 ∧
    (choose_upgrade wState 1 ⟨2, wIdRefresh⟩).subround = 1 ∧
    (choose_upgrade wState 1 ⟨2, wIdRefresh⟩).boss.hp =
      ((20 + 10 * ((wState.major_round + 1) - 1) : Nat) : Int) ∧
    (choose_upgrade wState 1 ⟨2, wIdRefresh⟩).boss.base_hp_per_subround =
      5 + 2 * ((wState.major_round + 1) - 1) ∧
    ((if (1 : Int) = 1 ∨ (1 : Int) = 2 ∨ (1 : Int) = 3 then (1 : Int) else 2) = 1 →
      (choose_upgrade wState 1 ⟨2, wIdRefresh⟩).player.base_hand_verbs =
        wState.player.base_hand_verbs + 1 ∧
      (choose_upgrade wState 1 ⟨2, wIdRefresh⟩).player.base_hand_rules =
        wState.player.base_hand_rules ∧
      (choose_upgrade wState 1 ⟨2, wIdRefresh⟩).player.skills = wState.player.skills) ∧
    ((if (1 : Int) = 1 ∨ (1 : Int) = 2 ∨ (1 : Int) = 3 then (1 : Int) else 2) = 2 →
      (choose_upgrade wState 1 ⟨2, wIdRefresh⟩).player.base_hand_rules =
        wState.player.base_hand_rules + 1 ∧
      (choose_upgrade wState 1 ⟨2, wIdRefresh⟩).player.base_hand_verbs =
        wState.player.base_hand_verbs ∧
      (choose_upgrade wState 1 ⟨2, wIdRefresh⟩).player.skills = wState.player.skills) ∧
    ((if (1 : Int) = 1 ∨ (1 : Int) = 2 ∨ (1 : Int) = 3 then (1 : Int) else 2) = 3 →
      (choose_upgrade wState 1 ⟨2, wIdRefresh⟩).player.skills =
        wState.player.skills ++ [retentionSkill] ∧
      (choose_upgrade wState 1 ⟨2, wIdRefresh⟩).player.base_hand_verbs =
        wState.player.base_hand_verbs ∧
      (choose_upgrade wState 1 ⟨2, wIdRefresh⟩).player.base_hand_rules =
        wState.player.base_hand_rules) ∧
    (¬((1 : Int) = 1 ∨ (1 : Int) = 2 ∨ (1 : Int) = 3) →
      (if (1 : Int) = 1 ∨ (1 : Int) = 2 ∨ (1 : Int) = 3 then (1 : Int) else 2) = 2) ∧
    ((if (1 : Int) = 1 ∨ (1 : Int) = 2 ∨ (1 : Int) = 3 then (1 : Int) else 2) = 1 ∨
     (if (1 : Int) = 1 ∨ (1 : Int) = 2 ∨ (1 : Int) = 3 then (1 : Int) else 2) = 2 ∨
     (if (1 : Int) = 1 ∨ (1 : Int) = 2 ∨ (1 : Int) = 3 then (1 : Int) else 2) = 3) ∧
    (choose_upgrade wState 1 ⟨2, wIdRefresh⟩).player.hand_verbs.length =
      (choose_upgrade wState 1 ⟨2, wIdRefresh⟩).player.base_hand_verbs ∧
    (choose_upgrade wState 1 ⟨2, wIdRefresh⟩).player.hand_rules.length =
      (choose_upgrade wState 1 ⟨2, wIdRefresh⟩).player.base_hand_rules ∧
    (choose_upgrade wState 1 ⟨2, wIdRefresh⟩).question = ⟨wIdRefresh.questionPerson⟩ :=
  C6_choose_upgrade_spec wState 1 ⟨2, wIdRefresh⟩ (by decide)

/-! Claim C9. -/

/-- Hand-size invariant: neither hand exceeds its base capacity. -/
def handInv (s : GameState) : Prop :=
  s.player.hand_verbs.length ≤ s.player.base_hand_verbs ∧
  s.player.hand_rules.length ≤ s.player.base_hand_rules

instance (s : GameState) : Decidable (handInv s) := by
  unfold handInv; infer_instance

/-- C9: hand sizes never exceed the base capacities: the invariant holds at
game start, `refresh_hands` deals exactly the capacities, `resolve_play`
and `shop_buy_direction_skill` preserve the invariant (the shop does not
touch hands at all), and `choose_upgrade` re-establishes it. -/
theorem C9_hand_capacity_invariant :
    (∀ loaded rng, handInv (start_new_game loaded rng)) ∧
    (∀ s rng, (refresh_hands s rng).player.hand_verbs.length = s.player.base_hand_verbs ∧
       (refresh_hands s rng).player.hand_rules.length = s.player.base_hand_rules) ∧
    (∀ s rng, handInv s → handInv (refresh_hands s rng)) ∧
    (∀ s vi ri rng, handInv s → handInv (resolve_play s vi ri rng).1) ∧
    (∀ s, (shop_buy_direction_skill s).1.player.hand_verbs = s.player.hand_verbs ∧
       (shop_buy_direction_skill s).1.player.hand_rules = s.player.hand_rules ∧
       (shop_buy_direction_skill s).1.player.base_hand_verbs = s.player.base_hand_verbs ∧
       (shop_buy_direction_skill s).1.player.base_hand_rules = s.player.base_hand_rules ∧
       (handInv s → handInv (shop_buy_direction_skill s).1)) ∧
    (∀ s o rng, handInv (choose_upgrade s o rng)) := by
  refine ⟨fun loaded rng => ?_, fun s rng => ?_, fun s rng h => ?_,
    fun s vi ri rng h => ?_, fun s => ?_, fun s o rng => ?_⟩
  · cases loaded <;> simp [start_new_game, handInv, refresh_hands]
  · simp [refresh_hands]
  · simp [handInv, refresh_hands]
  · obtain ⟨h1, h2⟩ := h
    simp only [resolve_play]
    split_ifs <;>
      simp_all [handInv, refresh_hands] <;>
      constructor <;>
      exact le_trans (List.length_eraseIdx_le _ _) (by assumption)
  · simp only [shop_buy_direction_skill]
    split_ifs <;> simp [handInv]
  · simp [handInv, choose_upgrade, refresh_hands]

/-- C9 instantiated: the invariant holds on the fixture state and is kept
by the fixture play. -/
theorem C9_hand_capacity_invariant_witness :
    handInv (resolve_play wState 0 0 wPlayRng).1 ∧
    handInv (start_new_game none wIdRefresh) :=
  ⟨C9_hand_capacity_invariant.2.2.2.1 wState 0 0 wPlayRng (by decide),
   C9_hand_capacity_invariant.1 none wIdRefresh⟩

/-! Normalization model for claim C4. -/

def marksList : List Char := ['́', '̈', '̃']

def isMark (c : Char) : Bool := marksList.contains c

def casePairs : List (Char × Char) :=
  [('A','a'),('B','b'),('C','c'),('D','d'),('E','e'),('F','f'),('G','g'),('H','h'),
   ('I','i'),('J','j'),('K','k'),('L','l'),('M','m'),('N','n'),('O','o'),('P','p'),
   ('Q','q'),('R','r'),('S','s'),('T','t'),('U','u'),('V','v'),('W','w'),('X','x'),
   ('Y','y'),('Z','z'),('Á','á'),('É','é'),('Í','í'),('Ó','ó'),('Ú','ú'),('Ü','ü'),('Ñ','ñ')]

def CaseEq (a b : Char) : Prop := a = b ∨ (a, b) ∈ casePairs ∨ (b, a) ∈ casePairs

instance (a b : Char) : Decidable (CaseEq a b) := by unfold CaseEq; infer_instance

def optRelCaseEq : Option Char → Option Char → Prop
  | none, none => True
  | some a, some b => CaseEq a b
  | _, _ => False

instance : (o₁ o₂ : Option Char) → Decidable (optRelCaseEq o₁ o₂)
  | none, none => isTrue trivial
  | some _, some _ => by unfold optRelCaseEq; infer_instance
  | none, some _ => isFalse (fun h => h)
  | some _, none => isFalse (fun h => h)

theorem casePairs_not_mark : ∀ p ∈ casePairs, isMark p.1 = false ∧ isMark p.2 = false := by decide
theorem casePairs_not_ws : ∀ p ∈ casePairs, isWs p.1 = false ∧ isWs p.2 = false := by decide
theorem casePairs_fold : ∀ p ∈ casePairs, foldChar p.1 = foldChar p.2 := by decide
theorem casePairs_compose_marks : ∀ p ∈ casePairs, ∀ m ∈ marksList,
    optRelCaseEq (composeBase p.1 m) (composeBase p.2 m) ∧
    optRelCaseEq (composeBase p.2 m) (composeBase p.1 m) := by decide
theorem ws_not_mark : ∀ w ∈ wsChars, isMark w = false := by decide

theorem compose_nonmark (x c : Char) (hc : isMark c = false) : composeBase x c = none := by
  have h1 : c ≠ '́' := by intro h; subst h; simp [isMark, marksList] at hc
  have h2 : c ≠ '̈' := by intro h; subst h; simp [isMark, marksList] at hc
  have h3 : c ≠ '̃' := by intro h; subst h; simp [isMark, marksList] at hc
  simp [composeBase, h1, h2, h3]

theorem caseEq_refl (a : Char) : CaseEq a a := Or.inl rfl

theorem caseEq_compose {x y x2 y2 : Char} (h1 : CaseEq x y) (h2 : CaseEq x2 y2) :
    optRelCaseEq (composeBase x x2) (composeBase y y2) := by
  have hpair_nm : ∀ a b, (a, b) ∈ casePairs ∨ (b, a) ∈ casePairs → isMark a = false ∧ isMark b = false := by
    intro a b hab
    rcases hab with hab | hab
    · exact ⟨(casePairs_not_mark _ hab).1, (casePairs_not_mark _ hab).2⟩
    · exact ⟨(casePairs_not_mark _ hab).2, (casePairs_not_mark _ hab).1⟩
  rcases h1 with rfl | hp1
  · rcases h2 with rfl | hp2
    · cases hc : composeBase x x2 with
      | none => trivial
      | some c => exact caseEq_refl c
    · have := (hpair_nm _ _ hp2).1
      have h2m := (hpair_nm _ _ hp2).2
      rw [compose_nonmark x x2 this, compose_nonmark x y2 h2m]
      trivial
  · rcases h2 with rfl | hp2
    · by_cases hm : isMark x2
      · have hx2 : x2 ∈ marksList := by
          simpa [isMark] using hm
        rcases hp1 with hp | hp
        · exact ((casePairs_compose_marks _ hp _ hx2).1)
        · exact ((casePairs_compose_marks _ hp _ hx2).2)
      · rw [compose_nonmark x x2 (by simpa using Bool.of_not_eq_true hm),
           compose_nonmark y x2 (by simpa using Bool.of_not_eq_true hm)]
        trivial
    · have := (hpair_nm _ _ hp2).1
      have h2m := (hpair_nm _ _ hp2).2
      rw [compose_nonmark x x2 this, compose_nonmark y y2 h2m]
      trivial

theorem caseRel_nfc : ∀ (n : Nat) (s t : List Char), s.length ≤ n →
    List.Forall₂ CaseEq s t → List.Forall₂ CaseEq (nfc s) (nfc t) := by
  intro n
  induction n with
  | zero =>
    intro s t hs h
    cases h with
    | nil => exact List.Forall₂.nil
    | cons h1 h2 => simp at hs
  | succ n ih =>
    intro s t hs h
    cases h with
    | nil => exact List.Forall₂.nil
    | @cons x y s1 t1 hxy hrest =>
      cases hrest with
      | nil => exact List.Forall₂.cons hxy List.Forall₂.nil
      | @cons x2 y2 s2 t2 hx2y2 hrest2 =>
        rw [nfc_cons₂, nfc_cons₂]
        have key := caseEq_compose hxy hx2y2
        cases hc1 : composeBase x x2 with
        | none =>
          cases hc2 : composeBase y y2 with
          | none =>
            exact List.Forall₂.cons hxy
              (ih _ _ (by simp at hs ⊢; omega) (List.Forall₂.cons hx2y2 hrest2))
          | some c2 =>
            rw [hc1, hc2] at key
            exact key.elim
        | some c =>
          cases hc2 : composeBase y y2 with
          | none =>
            rw [hc1, hc2] at key
            exact key.elim
          | some c2 =>
            rw [hc1, hc2] at key
            exact ih _ _ (by simp at hs ⊢; omega) (List.Forall₂.cons key hrest2)

theorem caseEq_ws {a b : Char} (h : CaseEq a b) : isWs a = isWs b := by
  rcases h with rfl | h | h
  · rfl
  · rw [(casePairs_not_ws _ h).1, (casePairs_not_ws _ h).2]
  · rw [(casePairs_not_ws _ h).2, (casePairs_not_ws _ h).1]

theorem caseEq_fold {a b : Char} (h : CaseEq a b) : foldChar a = foldChar b := by
  rcases h with rfl | h | h
  · rfl
  · exact casePairs_fold _ h
  · exact (casePairs_fold _ h).symm

theorem caseRel_dropWhile {s t : List Char} (h : List.Forall₂ CaseEq s t) :
    List.Forall₂ CaseEq (s.dropWhile isWs) (t.dropWhile isWs) := by
  induction h with
  | nil => exact List.Forall₂.nil
  | @cons x y s1 t1 hxy hrest ih =>
    rw [List.dropWhile_cons, List.dropWhile_cons, ← caseEq_ws hxy]
    by_cases hw : isWs x = true
    · rw [if_pos hw, if_pos hw]; exact ih
    · rw [if_neg hw, if_neg hw]; exact List.Forall₂.cons hxy hrest

theorem caseRel_reverse {s t : List Char} (h : List.Forall₂ CaseEq s t) :
    List.Forall₂ CaseEq s.reverse t.reverse := List.rel_reverse h

theorem caseRel_strip {s t : List Char} (h : List.Forall₂ CaseEq s t) :
    List.Forall₂ CaseEq (stripChars s) (stripChars t) := by
  unfold stripChars trimLeft trimRight
  exact caseRel_reverse (caseRel_dropWhile (caseRel_reverse (caseRel_dropWhile h)))

theorem caseRel_fold {s t : List Char} (h : List.Forall₂ CaseEq s t) :
    s.map foldChar = t.map foldChar := by
  induction h with
  | nil => rfl
  | @cons x y s1 t1 hxy hrest ih => simp [caseEq_fold hxy, ih]

theorem norm_case_invariant (s t : String) (h : List.Forall₂ CaseEq s.data t.data) :
    normalize_form s = normalize_form t := by
  apply data_inj
  show normChars s.data = normChars t.data
  unfold normChars
  exact caseRel_fold (caseRel_strip (caseRel_nfc s.data.length s.data t.data le_rfl h))

theorem composeBase_eq_none (x y : Char)
    (hx : x ≠ 'a' ∧ x ≠ 'A' ∧ x ≠ 'e' ∧ x ≠ 'E' ∧ x ≠ 'i' ∧ x ≠ 'I' ∧ x ≠ 'o' ∧ x ≠ 'O' ∧
      x ≠ 'u' ∧ x ≠ 'U' ∧ x ≠ 'n' ∧ x ≠ 'N') :
    composeBase x y = none := by
  obtain ⟨h1, h2, h3, h4, h5, h6, h7, h8, h9, h10, h11, h12⟩ := hx
  unfold composeBase
  split_ifs <;> simp_all

theorem compose_ws_left {w : Char} (y : Char) (hw : isWs w = true) : composeBase w y = none := by
  have hmem : w ∈ wsChars := by simpa [isWs] using hw
  apply composeBase_eq_none
  fin_cases hmem <;> exact (by decide)

theorem nfc_cons_of_none {a b : Char} {rest : List Char} (h : composeBase a b = none) :
    nfc (a :: b :: rest) = a :: nfc (b :: rest) := by
  rw [nfc_cons₂, h]

theorem nfc_cons_of_some {a b c : Char} {rest : List Char} (h : composeBase a b = some c) :
    nfc (a :: b :: rest) = nfc (c :: rest) := by
  rw [nfc_cons₂, h]

theorem nfc_ws_left : ∀ (pre u : List Char), (∀ c ∈ pre, isWs c = true) →
    nfc (pre ++ u) = pre ++ nfc u := by
  intro pre
  induction pre with
  | nil => intro u h; rfl
  | cons w pre1 ih =>
    intro u h
    have hw : isWs w = true := h w (List.mem_cons_self _ _)
    have hrest : ∀ c ∈ pre1, isWs c = true := fun c hc => h c (List.mem_cons_of_mem _ hc)
    show nfc (w :: (pre1 ++ u)) = w :: (pre1 ++ nfc u)
    cases hpu : pre1 ++ u with
    | nil =>
      rcases List.append_eq_nil.1 hpu with ⟨rfl, rfl⟩
      rfl
    | cons y v =>
      rw [nfc_cons_of_none (compose_ws_left y hw), ← hpu, ih u hrest]

theorem nfc_append_ws : ∀ (n : Nat) (u post : List Char), u.length ≤ n →
    (∀ c ∈ post, isWs c = true) → nfc (u ++ post) = nfc u ++ post := by
  intro n
  induction n with
  | zero =>
    intro u post hu hp
    have hnil : u = [] := List.length_eq_zero.mp (Nat.le_zero.mp hu)
    subst hnil
    simpa [nfc_nil] using nfc_ws_left post [] hp
  | succ n ih =>
    intro u post hu hp
    match u with
    | [] => simpa [nfc_nil] using nfc_ws_left post [] hp
    | [a] =>
      cases post with
      | nil => simp
      | cons w rest =>
        show nfc (a :: w :: rest) = nfc [a] ++ (w :: rest)
        have hwm : isMark w = false :=
          ws_not_mark w (by simpa [isWs] using hp w (List.mem_cons_self _ _))
        rw [nfc_cons_of_none (compose_nonmark a w hwm)]
        have hrest : nfc (w :: rest) = w :: rest := by
          simpa [nfc_nil] using nfc_ws_left (w :: rest) [] hp
        rw [hrest, nfc_single]
        rfl
    | a :: b :: r =>
      have hlen : (a :: b :: r).length ≤ n + 1 := hu
      cases hc : composeBase a b with
      | some c =>
        show nfc (a :: b :: (r ++ post)) = nfc (a :: b :: r) ++ post
        rw [nfc_cons_of_some hc, nfc_cons_of_some hc]
        exact ih (c :: r) post (by simp at hlen ⊢; omega) hp
      | none =>
        show nfc (a :: b :: (r ++ post)) = nfc (a :: b :: r) ++ post
        rw [nfc_cons_of_none hc, nfc_cons_of_none hc]
        rw [show (b :: (r ++ post)) = (b :: r) ++ post from rfl]
        rw [ih (b :: r) post (by simp at hlen ⊢; omega) hp]
        rfl

theorem trimLeft_ws_append (pre u : List Char) (h : ∀ c ∈ pre, isWs c = true) :
    trimLeft (pre ++ u) = trimLeft u := by
  induction pre with
  | nil => rfl
  | cons w pre1 ih =>
    have hw : isWs w = true := h w (List.mem_cons_self _ _)
    have hrest : ∀ c ∈ pre1, isWs c = true := fun c hc => h c (List.mem_cons_of_mem _ hc)
    show trimLeft (w :: (pre1 ++ u)) = trimLeft u
    rw [trimLeft, List.dropWhile_cons, if_pos hw]
    exact ih hrest

theorem trimLeft_all_ws (l : List Char) (h : ∀ c ∈ l, isWs c = true) : trimLeft l = [] := by
  have := trimLeft_ws_append l [] h
  simpa using this

theorem trimLeft_append (x post : List Char) :
    trimLeft (x ++ post) = if (trimLeft x).isEmpty then trimLeft post else trimLeft x ++ post := by
  induction x with
  | nil => simp [trimLeft]
  | cons a x1 ih =>
    by_cases hw : isWs a = true
    · show trimLeft (a :: (x1 ++ post)) = _
      rw [trimLeft, List.dropWhile_cons, if_pos hw]
      rw [show trimLeft (a :: x1) = trimLeft x1 by
        rw [trimLeft, List.dropWhile_cons, if_pos hw]; rfl]
      exact ih
    · show trimLeft (a :: (x1 ++ post)) = _
      rw [trimLeft, List.dropWhile_cons, if_neg hw]
      rw [show trimLeft (a :: x1) = a :: x1 by
        rw [trimLeft, List.dropWhile_cons, if_neg hw]]
      simp [List.isEmpty]

theorem trimRight_append_ws (u post : List Char) (h : ∀ c ∈ post, isWs c = true) :
    trimRight (u ++ post) = trimRight u := by
  unfold trimRight
  rw [List.reverse_append]
  rw [show (post.reverse ++ u.reverse).dropWhile isWs = trimLeft (post.reverse ++ u.reverse)
    from rfl]
  rw [trimLeft_ws_append post.reverse u.reverse
    (fun c hc => h c (List.mem_reverse.mp hc))]
  rfl

theorem strip_pad (u pre post : List Char)
    (hpre : ∀ c ∈ pre, isWs c = true) (hpost : ∀ c ∈ post, isWs c = true) :
    stripChars (pre ++ u ++ post) = stripChars u := by
  unfold stripChars
  have h1 : trimLeft ((pre ++ u) ++ post) = trimLeft (u ++ post) := by
    rw [List.append_assoc]
    exact trimLeft_ws_append pre (u ++ post) hpre
  rw [h1, trimLeft_append u post]
  by_cases he : (trimLeft u).isEmpty
  · rw [if_pos he, trimLeft_all_ws post hpost]
    have hz : trimLeft u = [] := by
      cases hx : trimLeft u
      · rfl
      · rw [hx] at he; simp [List.isEmpty] at he
    rw [hz]
  · rw [if_neg he]
    exact trimRight_append_ws (trimLeft u) post hpost

theorem norm_ws_pad (s : String) (pre post : List Char)
    (hpre : ∀ c ∈ pre, isWs c = true) (hpost : ∀ c ∈ post, isWs c = true) :
    normalize_form ⟨pre ++ s.data ++ post⟩ = normalize_form s := by
  apply data_inj
  show normChars (pre ++ s.data ++ post) = normChars s.data
  unfold normChars
  have h1 : nfc (pre ++ s.data ++ post) = pre ++ (nfc s.data ++ post) := by
    rw [List.append_assoc, nfc_ws_left pre (s.data ++ post) hpre,
      nfc_append_ws s.data.length s.data post le_rfl hpost]
  rw [h1, ← List.append_assoc, strip_pad (nfc s.data) pre post hpre hpost]

def decompTable : List (Char × Char × Char) :=
  [('á', 'a', '́'), ('é', 'e', '́'), ('í', 'i', '́'), ('ó', 'o', '́'), ('ú', 'u', '́'),
   ('ü', 'u', '̈'), ('ñ', 'n', '̃'), ('Á', 'A', '́'), ('É', 'E', '́'), ('Í', 'I', '́'),
   ('Ó', 'O', '́'), ('Ú', 'U', '́'), ('Ü', 'U', '̈'), ('Ñ', 'N', '̃')]

def decompChar (c : Char) : List Char :=
  match decompTable.find? (fun e => e.1 == c) with
  | some e => [e.2.1, e.2.2]
  | none => [c]

def NoMarks (l : List Char) : Prop := ∀ c ∈ l, isMark c = false

theorem decomp_spec (x : Char) :
    decompChar x = [x] ∨
    (∃ b m, decompChar x = [b, m] ∧ composeBase b m = some x ∧ isMark b = false) := by
  unfold decompChar
  cases hf : decompTable.find? (fun e => e.1 == x) with
  | none => exact Or.inl rfl
  | some e =>
    have hmem := List.mem_of_find?_eq_some hf
    have hx : e.1 = x := by have := List.find?_some hf; simpa using this
    have hkey := (by decide : ∀ e ∈ decompTable,
      composeBase e.2.1 e.2.2 = some e.1 ∧ isMark e.2.1 = false) e hmem
    exact Or.inr ⟨e.2.1, e.2.2, rfl, by rw [hkey.1, hx], hkey.2⟩

theorem nfc_nomarks : ∀ (n : Nat) (l : List Char), l.length ≤ n → NoMarks l → nfc l = l := by
  intro n
  induction n with
  | zero =>
    intro l hl hm
    rw [List.length_eq_zero.mp (Nat.le_zero.mp hl)]
    rfl
  | succ n ih =>
    intro l hl hm
    match l with
    | [] => rfl
    | [a] => rfl
    | a :: b :: r =>
      have hb : isMark b = false := hm b (List.mem_cons_of_mem _ (List.mem_cons_self _ _))
      rw [nfc_cons_of_none (compose_nonmark a b hb)]
      have : NoMarks (b :: r) := fun c hc => hm c (List.mem_cons_of_mem _ hc)
      rw [ih (b :: r) (by simp at hl ⊢; omega) this]

theorem nfc_cons_decomp : ∀ (n : Nat) (r : List Char) (a : Char), r.length ≤ n →
    isMark a = false → NoMarks r → nfc (a :: r.flatMap decompChar) = a :: r := by
  intro n
  induction n with
  | zero =>
    intro r a hr ha hnm
    rw [List.length_eq_zero.mp (Nat.le_zero.mp hr)]
    rfl
  | succ n ih =>
    intro r a hr ha hnm
    match r with
    | [] => rfl
    | x :: r1 =>
      have hx : isMark x = false := hnm x (List.mem_cons_self _ _)
      have hnm1 : NoMarks r1 := fun c hc => hnm c (List.mem_cons_of_mem _ hc)
      have hr1 : r1.length ≤ n := by simp at hr; omega
      show nfc (a :: (decompChar x ++ r1.flatMap decompChar)) = a :: x :: r1
      rcases decomp_spec x with hd | ⟨b, m, hd, hc, hb⟩
      · rw [hd]
        show nfc (a :: x :: r1.flatMap decompChar) = a :: x :: r1
        rw [nfc_cons_of_none (compose_nonmark a x hx), ih r1 x hr1 hx hnm1]
      · rw [hd]
        show nfc (a :: b :: m :: r1.flatMap decompChar) = a :: x :: r1
        rw [nfc_cons_of_none (compose_nonmark a b hb), nfc_cons_of_some hc,
          ih r1 x hr1 hx hnm1]

theorem nfc_flatMap_decomp (s : List Char) (h : NoMarks s) :
    nfc (s.flatMap decompChar) = s := by
  cases s with
  | nil => rfl
  | cons a r =>
    have ha : isMark a = false := h a (List.mem_cons_self _ _)
    have hr : NoMarks r := fun c hc => h c (List.mem_cons_of_mem _ hc)
    show nfc (decompChar a ++ r.flatMap decompChar) = a :: r
    rcases decomp_spec a with hd | ⟨b, m, hd, hc, hb⟩
    · rw [hd]
      exact nfc_cons_decomp r.length r a le_rfl ha hr
    · rw [hd]
      show nfc (b :: m :: r.flatMap decompChar) = a :: r
      rw [nfc_cons_of_some hc]
      exact nfc_cons_decomp r.length r a le_rfl ha hr

theorem norm_decomp (s : String) (h : NoMarks s.data) :
    normalize_form ⟨s.data.flatMap decompChar⟩ = normalize_form s := by
  apply data_inj
  show normChars (s.data.flatMap decompChar) = normChars s.data
  unfold normChars
  rw [nfc_flatMap_decomp s.data h,
    nfc_nomarks s.data.length s.data le_rfl h]

theorem norm_concrete :
    normalize_form ⟨['a', '́', 'i', 's']⟩ = normalize_form "áis" ∧
    normalize_form "ais" ≠ normalize_form "áis" ∧
    normalize_form "hablo" ≠ normalize_form "habla" ∧
    normalize_form "  HABLO " = normalize_form "hablo" := by decide

/-! Claim C4. -/

/-- C4: the normalization used for answer comparison identifies strings
that differ only by letter case (pointwise case-equivalence), by
surrounding whitespace, or by an alternate Unicode composition of the same
accented letter (NFD decomposition of a mark-free string), and keeps
orthographically different strings apart (a missing accent, a different
letter). -/
theorem C4_normalization_equiv :
    (∀ s t : String, List.Forall₂ CaseEq s.data t.data →
       normalize_form s = normalize_form t) ∧
    (∀ (s : String) (pre post : List Char),
       (∀ c ∈ pre, isWs c = true) → (∀ c ∈ post, isWs c = true) →
       normalize_form ⟨pre ++ s.data ++ post⟩ = normalize_form s) ∧
    (∀ s : String, NoMarks s.data →
       normalize_form ⟨s.data.flatMap decompChar⟩ = normalize_form s) ∧
    normalize_form ⟨['a', '́', 'i', 's']⟩ = normalize_form "áis" ∧
    normalize_form "  HABLO " = normalize_form "hablo" ∧
    normalize_form "ais" ≠ normalize_form "áis" ∧
    normalize_form "hablo" ≠ normalize_form "habla" :=
  ⟨norm_case_invariant, norm_ws_pad, norm_decomp, norm_concrete.1,
   norm_concrete.2.2.2, norm_concrete.2.1, norm_concrete.2.2.1⟩

/-- C4 instantiated: an uppercase variant and a padded variant both
normalize like the plain lowercase string. -/
theorem C4_normalization_equiv_witness :
    normalize_form "Áis" = normalize_form "áis" ∧
    normalize_form ⟨[' '] ++ ("hablo" : String).data ++ [' ', '\t']⟩ = normalize_form "hablo" :=
  ⟨C4_normalization_equiv.1 "Áis" "áis"
      (List.Forall₂.cons (by decide) (List.Forall₂.cons (by decide)
        (List.Forall₂.cons (by decide) List.Forall₂.nil))),
   C4_normalization_equiv.2.1 "hablo" [' '] [' ', '\t'] (by decide) (by decide)⟩


end SpanishRogue
